import Mathlib

/-!
Cowboys: the turn-based grid combat engine of `src/game.js`

A shallow embedding of the game engine (board, roster, turn sequencing, action
resolution and the laser ray walk) together with theorems about it.

Conventions of the embedding:

* JavaScript objects that are mutated through a reference are identified by
  their place in the state: a combatant by its index in `state.players`, a tile
  by its `(row, col)` in `state.map`.  A mutation is a functional update there.
* Numbers that the engine computes with (`row`, `col`, `hp`, `strength`) are
  integers (`Int`); `currentTurnIndex` and `round` are naturals.
* A property access on `undefined` (a `TypeError` in JavaScript) is the result
  `Outcome.typeError`.  The only place where the engine can reach it is a board
  that is not a full 11 x 11 grid, or an action run for a combatant that is not
  in the roster.
* The `while` loop of `shoot` is structurally recursive on a fuel counter;
  `Outcome.outOfFuel` is returned when the counter runs out.  A ray has at most
  11 cells in bounds (`raySpan_le`), `shoot` gives the loop 22 iterations, and
  `shootLoop_spec` and `shoot_cases` show that on a full board the loop always
  ends in one of its three regular exits.
* The log, the beam / flash / shake effect lists, audio and rendering are
  outputs of the engine that it never reads back; they are not part of the
  embedded state.  `spriteMode` is kept because the engine writes it into the
  combatant records.
-/

namespace Cowboys
/-! ## Constants and data model -/

/-- Number of board rows (`MAP_ROWS`). -/
def MAP_ROWS : Int := 11

/-- Number of board columns (`MAP_COLS`). -/
def MAP_COLS : Int := 11

/-- Starting hit points (`DEFAULT_HP`). -/
def DEFAULT_HP : Int := 10

/-- Damage of one laser hit (`LASER_DAMAGE`). -/
def LASER_DAMAGE : Int := 1

/-- The four direction strings `"up"`, `"left"`, `"down"`, `"right"`; the same
strings are the combatant ids. -/
inductive Dir where
  | up
  | left
  | down
  | right
  deriving DecidableEq, Repr

/-- The fixed turn order (`TURN_ORDER`). -/
def TURN_ORDER : List Dir := [Dir.up, Dir.left, Dir.down, Dir.right]

/-- A unit step `{ dr, dc }`. -/
structure Delta where
  dr : Int
  dc : Int
  deriving DecidableEq, Repr

/-- The unit vector of a direction (`DIRECTION`). -/
def DIRECTION : Dir → Delta
  | Dir.up => { dr := -1, dc := 0 }
  | Dir.left => { dr := 0, dc := -1 }
  | Dir.down => { dr := 1, dc := 0 }
  | Dir.right => { dr := 0, dc := 1 }

/-- The opposite direction (`OPPOSITE`). -/
def OPPOSITE : Dir → Dir
  | Dir.up => Dir.down
  | Dir.down => Dir.up
  | Dir.left => Dir.right
  | Dir.right => Dir.left

/-- A board cell: `{ type: "empty" }` or `{ type: "block", strength }`. -/
inductive Tile where
  | empty
  | block (strength : Int)
  deriving DecidableEq, Repr

/-- The match phase. -/
inductive Phase where
  | idle
  | playing
  | finished
  deriving DecidableEq, Repr

/-- The sprite mode string of a combatant. -/
inductive SpriteMode where
  | idle
  | run
  | attack
  | roll
  deriving DecidableEq, Repr

/-- The value of the action select: one of the three actions, or any other
string. -/
inductive Action where
  | move
  | shield
  | shoot
  | other
  deriving DecidableEq, Repr

/-- A combatant record of `state.players`. -/
structure Player where
  id : Dir
  row : Int
  col : Int
  hp : Int
  shield : Dir
  aim : Dir
  spriteMode : SpriteMode
  alive : Bool
  deriving DecidableEq, Repr

/-- The gameplay part of the global `state` object. -/
structure State where
  phase : Phase
  map : List (List Tile)
  players : List Player
  currentTurnIndex : Nat
  round : Nat
  deriving DecidableEq, Repr

/-- Result of running engine code: a value, a JavaScript `TypeError`, or the
fuel of the embedded `while` loop running out. -/
inductive Outcome (α : Type) where
  | ok (value : α)
  | typeError
  | outOfFuel
  deriving DecidableEq, Repr

/-- The static board template (`TEMPLATE`). -/
def TEMPLATE : List (List Int) :=
  [ [0, 0, 0, 0, 0, 0, 0, 0, 0, 0, 0],
    [0, 0, 0, 2, 0, 0, 0, 2, 0, 0, 0],
    [0, -1, 0, 0, 0, 1, 0, 0, 0, -1, 0],
    [2, 0, 1, 0, -1, 0, -1, 0, 1, 0, 2],
    [0, 0, 0, 0, 2, 0, 2, 0, 0, 0, 0],
    [0, 1, -1, 2, 0, 0, 0, 2, -1, 1, 0],
    [0, 0, 0, 0, 2, 0, 2, 0, 0, 0, 0],
    [2, 0, 1, 0, -1, 0, -1, 0, 1, 0, 2],
    [0, -1, 0, 0, 0, 1, 0, 0, 0, -1, 0],
    [0, 0, 0, 2, 0, 0, 0, 2, 0, 0, 0],
    [0, 0, 0, 0, 0, 0, 0, 0, 0, 0, 0] ]

/-! ## Construction of a fresh match -/

/-- Fresh board from the template (`cloneMapFromTemplate`). -/
def cloneMapFromTemplate : List (List Tile) :=
  TEMPLATE.map fun row =>
    row.map fun cell => if cell = 0 then Tile.empty else Tile.block cell

/-- The four combatants at their start cells (`createPlayers`). -/
def createPlayers : List Player :=
  let midRow := MAP_ROWS / 2
  let midCol := MAP_COLS / 2
  [ { id := Dir.up, row := 0, col := midCol, hp := DEFAULT_HP, shield := Dir.up,
      aim := Dir.up, spriteMode := SpriteMode.idle, alive := true },
    { id := Dir.left, row := midRow, col := 0, hp := DEFAULT_HP, shield := Dir.left,
      aim := Dir.left, spriteMode := SpriteMode.idle, alive := true },
    { id := Dir.down, row := MAP_ROWS - 1, col := midCol, hp := DEFAULT_HP,
      shield := Dir.down, aim := Dir.down, spriteMode := SpriteMode.idle, alive := true },
    { id := Dir.right, row := midRow, col := MAP_COLS - 1, hp := DEFAULT_HP,
      shield := Dir.right, aim := Dir.right, spriteMode := SpriteMode.idle, alive := true } ]

/-- Start or restart a match (`startMatch`): every gameplay field of the
previous state is overwritten. -/
def startMatch (s : State) : State :=
  { s with
    phase := Phase.playing
    map := cloneMapFromTemplate
    players := createPlayers
    currentTurnIndex := 0
    round := 1 }

/-! ## Roster and board queries -/

/-- Index of the first element satisfying `q` (the object `Array.prototype.find`
returns, named by its place in the array). -/
def findIdx (q : Player → Bool) : List Player → Option Nat
  | [] => none
  | p :: ps => if q p then some 0 else (findIdx q ps).map (· + 1)

/-- Roster lookup by id (`getPlayerById`); the id is `none` when it is
`undefined` (an index outside `TURN_ORDER`). -/
def getPlayerById (s : State) (id : Option Dir) : Option Nat :=
  findIdx (fun p => decide (some p.id = id)) s.players

/-- The combatant whose turn it is (`getActivePlayer`). -/
def getActivePlayer (s : State) : Option Nat :=
  getPlayerById s TURN_ORDER[s.currentTurnIndex]?

/-- The living combatants (`alivePlayers`). -/
def alivePlayers (s : State) : List Player :=
  s.players.filter fun p => p.alive

/-- First living combatant on a cell (`playerAt`). -/
def playerAt (s : State) (row col : Int) : Option Nat :=
  findIdx (fun p => p.alive && decide (p.row = row) && decide (p.col = col)) s.players

/-- Bounds check (`inBounds`). -/
def inBounds (row col : Int) : Bool :=
  decide (row ≥ 0) && decide (row < MAP_ROWS) && decide (col ≥ 0) && decide (col < MAP_COLS)

/-- The array access `state.map[row][col]`; `none` is `undefined`. -/
def tileAt (m : List (List Tile)) (row col : Int) : Option Tile :=
  match m[row.toNat]? with
  | some r => r[col.toNat]?
  | none => none

/-- The block on a cell, by its strength, or `none` for `null` (`blockTile`).
Reading `.type` of a missing tile is a `TypeError`. -/
def blockTile (s : State) (row col : Int) : Outcome (Option Int) :=
  if !inBounds row col then Outcome.ok none
  else
    match tileAt s.map row col with
    | none => Outcome.typeError
    | some (Tile.block strength) => Outcome.ok (some strength)
    | some Tile.empty => Outcome.ok none

/-- The write `state.map[row][col] = t` (also the in-place update of the tile
object stored there). -/
def setTile (m : List (List Tile)) (row col : Int) (t : Tile) : List (List Tile) :=
  match m[row.toNat]? with
  | some r => m.set row.toNat (r.set col.toNat t)
  | none => m

/-- Functional update of the combatant object at index `i`. -/
def updatePlayer (s : State) (i : Nat) (f : Player → Player) : State :=
  match s.players[i]? with
  | some p => { s with players := s.players.set i (f p) }
  | none => s

/-- The test `x && x.alive` on the result of a roster lookup. -/
def aliveRef (s : State) : Option Nat → Bool
  | some i =>
    match s.players[i]? with
    | some p => p.alive
    | none => false
  | none => false

/-! ## Turn sequencing -/

/-- The `for` loop of `spendTurn`: `n` iterations are left and `next` is the
index tried last. -/
def spendTurnLoop (s : State) (activeBefore : Nat) : Nat → Nat → State
  | 0, _ => s
  | n + 1, next =>
    let next := (next + 1) % TURN_ORDER.length
    let candidate := getPlayerById s TURN_ORDER[next]?
    if aliveRef s candidate then
      { s with
        currentTurnIndex := next
        round := if next ≤ activeBefore then s.round + 1 else s.round }
    else spendTurnLoop s activeBefore n next

/-- Hand the turn to the next living combatant (`spendTurn`). -/
def spendTurn (s : State) : State :=
  let activeBefore := s.currentTurnIndex
  let currentPlayer := getPlayerById s TURN_ORDER[activeBefore]?
  let s1 :=
    match currentPlayer with
    | some i =>
      if aliveRef s currentPlayer then
        updatePlayer s i fun p => { p with spriteMode := SpriteMode.idle }
      else s
    | none => s
  spendTurnLoop s1 activeBefore TURN_ORDER.length activeBefore

/-- Win check (`checkWinner`): the returned flag and the state after it. -/
def checkWinner (s : State) : Bool × State :=
  if (alivePlayers s).length = 1 then (true, { s with phase := Phase.finished })
  else (false, s)

/-! ## Action resolution -/

/-- Move the combatant at index `activePlayer` one cell (`tryMove`). -/
def tryMove (s : State) (activePlayer : Nat) (direction : Dir) : Outcome (Bool × State) :=
  match s.players[activePlayer]? with
  | none => Outcome.typeError
  | some p =>
    let delta := DIRECTION direction
    let nextRow := p.row + delta.dr
    let nextCol := p.col + delta.dc
    if !inBounds nextRow nextCol then Outcome.ok (false, s)
    else
      match blockTile s nextRow nextCol with
      | Outcome.typeError => Outcome.typeError
      | Outcome.outOfFuel => Outcome.outOfFuel
      | Outcome.ok (some _) => Outcome.ok (false, s)
      | Outcome.ok none =>
        match playerAt s nextRow nextCol with
        | some _ => Outcome.ok (false, s)
        | none =>
          Outcome.ok (true,
            updatePlayer s activePlayer fun q => { q with row := nextRow, col := nextCol })

/-- Laser damage to the block of strength `strength` on `(row, col)`
(`applyLaserToBlock`). -/
def applyLaserToBlock (s : State) (strength : Int) (row col : Int) : State :=
  if strength = -1 then s
  else
    let strength := strength - 1
    if strength ≤ 0 then { s with map := setTile s.map row col Tile.empty }
    else { s with map := setTile s.map row col (Tile.block strength) }

/-- Laser hit on the combatant at index `target` by a shot travelling in
`direction` (the `if (target)` branch of `shoot`). -/
def hitPlayer (s : State) (target : Nat) (direction : Dir) : Outcome (Bool × State) :=
  match s.players[target]? with
  | none => Outcome.typeError
  | some t =>
    let incomingSide := OPPOSITE direction
    if t.shield = incomingSide then Outcome.ok (true, s)
    else
      let hp := t.hp - LASER_DAMAGE
      if hp ≤ 0 then
        Outcome.ok (true, updatePlayer s target fun q => { q with hp := 0, alive := false })
      else Outcome.ok (true, updatePlayer s target fun q => { q with hp := hp })

/-- The `while (inBounds(row, col))` loop of `shoot`, from the cell
`(row, col)`, with a fuel counter. -/
def shootLoop (s : State) (direction : Dir) : Nat → Int → Int → Outcome (Bool × State)
  | 0, row, col => if inBounds row col then Outcome.outOfFuel else Outcome.ok (true, s)
  | fuel + 1, row, col =>
    if inBounds row col then
      match blockTile s row col with
      | Outcome.typeError => Outcome.typeError
      | Outcome.outOfFuel => Outcome.outOfFuel
      | Outcome.ok (some strength) => Outcome.ok (true, applyLaserToBlock s strength row col)
      | Outcome.ok none =>
        match playerAt s row col with
        | some target => hitPlayer s target direction
        | none =>
          shootLoop s direction fuel (row + (DIRECTION direction).dr)
            (col + (DIRECTION direction).dc)
    else Outcome.ok (true, s)

/-- Fire the laser of the combatant at index `activePlayer` (`shoot`). -/
def shoot (s : State) (activePlayer : Nat) (direction : Dir) : Outcome (Bool × State) :=
  match s.players[activePlayer]? with
  | none => Outcome.typeError
  | some p =>
    if direction = p.shield then Outcome.ok (false, s)
    else
      let delta := DIRECTION direction
      shootLoop s direction (MAP_ROWS.toNat + MAP_COLS.toNat) (p.row + delta.dr)
        (p.col + delta.dc)

/-- Resolve one action of the combatant at index `activePlayer` (`runAction`):
the consumed flag and the state after it. -/
def runAction (s : State) (activePlayer : Nat) (action : Action) (direction : Dir) :
    Outcome (Bool × State) :=
  match action with
  | Action.move =>
    match tryMove s activePlayer direction with
    | Outcome.ok (true, s1) =>
      Outcome.ok (true,
        updatePlayer s1 activePlayer fun p => { p with aim := direction, spriteMode := SpriteMode.run })
    | r => r
  | Action.shield =>
    match s.players[activePlayer]? with
    | none => Outcome.typeError
    | some _ =>
      Outcome.ok (true,
        updatePlayer s activePlayer fun p =>
          { p with shield := direction, spriteMode := SpriteMode.roll })
  | Action.shoot =>
    match s.players[activePlayer]? with
    | none => Outcome.typeError
    | some _ =>
      shoot
        (updatePlayer s activePlayer fun p =>
          { p with aim := direction, spriteMode := SpriteMode.attack })
        activePlayer direction
  | Action.other => Outcome.ok (false, s)

/-! ## One full turn -/

/-- Execute the command of the active combatant (`executeActiveCommand`); the
action and direction are the values read from its two selects. -/
def executeActiveCommand (s : State) (action : Action) (direction : Dir) : Outcome State :=
  if s.phase ≠ Phase.playing then Outcome.ok s
  else
    match getActivePlayer s with
    | none => Outcome.ok s
    | some activePlayer =>
      if !aliveRef s (some activePlayer) then Outcome.ok s
      else
        match runAction s activePlayer action direction with
        | Outcome.typeError => Outcome.typeError
        | Outcome.outOfFuel => Outcome.outOfFuel
        | Outcome.ok (false, s1) => Outcome.ok s1
        | Outcome.ok (true, s1) =>
          match checkWinner s1 with
          | (true, s2) => Outcome.ok s2
          | (false, s2) => Outcome.ok (spendTurn s2)

/-! ## Vocabulary of the statements and sample states -/

/-- The board is a full grid of `MAP_ROWS` rows of `MAP_COLS` tiles. -/
def boardOk (m : List (List Tile)) : Prop :=
  m.length = MAP_ROWS.toNat ∧ ∀ r ∈ m, r.length = MAP_COLS.toNat

instance (m : List (List Tile)) : Decidable (boardOk m) := by
  unfold boardOk; infer_instance

/-- What `shoot` does when its ray reaches `(row, col)` and finds a block there:
the block branch of the loop body, a no-op on any other cell. -/
def hitBlock (row col : Int) (s : State) : State :=
  match blockTile s row col with
  | Outcome.ok (some strength) => applyLaserToBlock s strength row col
  | _ => s


/-- The cell `k` steps along `direction` from `(row, col)`; `k = 0` is the cell
itself, the ray of a shot from there is `k = 1, 2, ...`. -/
def rayCell (row col : Int) (direction : Dir) (k : Nat) : Int × Int :=
  (row + k * (DIRECTION direction).dr, col + k * (DIRECTION direction).dc)

/-- The cell holds a block. -/
def holdsBlock (s : State) (row col : Int) : Bool :=
  match tileAt s.map row col with
  | some (Tile.block _) => true
  | _ => false

/-- The cell holds a living combatant. -/
def holdsLiving (s : State) (row col : Int) : Bool :=
  s.players.any fun q => q.alive && decide (q.row = row) && decide (q.col = col)

/-- An obstruction: an in-bounds cell that holds a block or a living
combatant. -/
def obstruction (s : State) (cell : Int × Int) : Bool :=
  inBounds cell.1 cell.2 && (holdsBlock s cell.1 cell.2 || holdsLiving s cell.1 cell.2)

/-- The `k`-th cell of the ray from `(row, col)` (exclusive) along `direction`
is the first obstruction: the nearest cell of the ray that is an obstruction. -/
def FirstObstruction (s : State) (row col : Int) (direction : Dir) (k : Nat) : Prop :=
  1 ≤ k ∧ obstruction s (rayCell row col direction k) = true ∧
    ∀ j, 1 ≤ j → j < k → obstruction s (rayCell row col direction j) = false

instance (s : State) (row col : Int) (direction : Dir) (k : Nat) :
    Decidable (FirstObstruction s row col direction k) := by
  unfold FirstObstruction; infer_instance

/-- Number of in-bounds cells from `(row, col)` on along `direction`, when
`(row, col)` is in bounds: the number of iterations left to the `while` loop of
`shoot`. -/
def raySpan (direction : Dir) (row col : Int) : Nat :=
  match direction with
  | Dir.up => (row + 1).toNat
  | Dir.down => (MAP_ROWS - row).toNat
  | Dir.left => (col + 1).toNat
  | Dir.right => (MAP_COLS - col).toNat


/-- The `state` object once the script is loaded and before a match is started:
phase idle, with the board and roster already filled in. -/
def idleState : State :=
  { phase := Phase.idle
    map := cloneMapFromTemplate
    players := createPlayers
    currentTurnIndex := 0
    round := 1 }

/-- Run a sequence of commands, one `executeActiveCommand` each. -/
def runCommands (s : State) : List (Action × Dir) → Outcome State
  | [] => Outcome.ok s
  | (action, direction) :: rest =>
    match executeActiveCommand s action direction with
    | Outcome.ok s' => runCommands s' rest
    | Outcome.typeError => Outcome.typeError
    | Outcome.outOfFuel => Outcome.outOfFuel

/-- The state after one round in which "up" stepped down and the others turned
their shields to where they already were: it is the turn of "up" again, whose
shield faces up and whose aim faces down. -/
def aimedState : State :=
  { startMatch idleState with
    players :=
      [ { id := Dir.up, row := 1, col := 5, hp := 10, shield := Dir.up, aim := Dir.down,
          spriteMode := SpriteMode.idle, alive := true },
        { id := Dir.left, row := 5, col := 0, hp := 10, shield := Dir.left, aim := Dir.left,
          spriteMode := SpriteMode.idle, alive := true },
        { id := Dir.down, row := 10, col := 5, hp := 10, shield := Dir.down, aim := Dir.down,
          spriteMode := SpriteMode.idle, alive := true },
        { id := Dir.right, row := 5, col := 10, hp := 10, shield := Dir.right, aim := Dir.right,
          spriteMode := SpriteMode.idle, alive := true } ]
    round := 2 }


/-- A fresh match in which "left" stands on (3, 5), directly behind the block
of strength 1 on (2, 5) as seen from "up" on (0, 5). -/
def lineupState : State :=
  { startMatch idleState with
    players :=
      [ { id := Dir.up, row := 0, col := 5, hp := 10, shield := Dir.up, aim := Dir.up,
          spriteMode := SpriteMode.idle, alive := true },
        { id := Dir.left, row := 3, col := 5, hp := 10, shield := Dir.left, aim := Dir.left,
          spriteMode := SpriteMode.idle, alive := true },
        { id := Dir.down, row := 10, col := 5, hp := 10, shield := Dir.down, aim := Dir.down,
          spriteMode := SpriteMode.idle, alive := true },
        { id := Dir.right, row := 5, col := 10, hp := 10, shield := Dir.right, aim := Dir.right,
          spriteMode := SpriteMode.idle, alive := true } ] }

/-- A fresh match in which "down" stands on (1, 5), right below "up", with its
shield facing down. -/
def duelState : State :=
  { startMatch idleState with
    players :=
      [ { id := Dir.up, row := 0, col := 5, hp := 10, shield := Dir.up, aim := Dir.up,
          spriteMode := SpriteMode.idle, alive := true },
        { id := Dir.left, row := 5, col := 0, hp := 10, shield := Dir.left, aim := Dir.left,
          spriteMode := SpriteMode.idle, alive := true },
        { id := Dir.down, row := 1, col := 5, hp := 10, shield := Dir.down, aim := Dir.down,
          spriteMode := SpriteMode.idle, alive := true },
        { id := Dir.right, row := 5, col := 10, hp := 10, shield := Dir.right, aim := Dir.right,
          spriteMode := SpriteMode.idle, alive := true } ] }


/-- The candidate test of `spendTurn` for turn slot `j`: the combatant with id
`TURN_ORDER[j]` exists and is alive. -/
def slotAlive (s : State) (j : Nat) : Bool :=
  aliveRef s (getPlayerById s TURN_ORDER[j]?)


/-- A late state of play: only "up" on (0, 5) and "down" on (1, 5) are alive,
"down" has one hp left and its shield faces down; it is the turn of "up". -/
def lastDuelState : State :=
  { startMatch idleState with
    players :=
      [ { id := Dir.up, row := 0, col := 5, hp := 10, shield := Dir.up, aim := Dir.up,
          spriteMode := SpriteMode.idle, alive := true },
        { id := Dir.left, row := 5, col := 0, hp := 0, shield := Dir.left, aim := Dir.left,
          spriteMode := SpriteMode.idle, alive := false },
        { id := Dir.down, row := 1, col := 5, hp := 1, shield := Dir.down, aim := Dir.down,
          spriteMode := SpriteMode.idle, alive := true },
        { id := Dir.right, row := 5, col := 10, hp := 0, shield := Dir.right, aim := Dir.right,
          spriteMode := SpriteMode.idle, alive := false } ]
    round := 7 }


/-- The states of play: those produced by `startMatch` (from any earlier state)
followed by any number of `executeActiveCommand` steps, each with any action and
direction. -/
inductive Reachable : State → Prop where
  | start (s0 : State) : Reachable (startMatch s0)
  | step {s s' : State} (action : Action) (direction : Dir) :
      Reachable s → executeActiveCommand s action direction = Outcome.ok s' → Reachable s'

/-- The placement invariant of the engine: the board is a full grid, every
combatant stands in bounds, no living combatant stands on a block, and two
living combatants on the same cell are the same roster entry. -/
def Inv (s : State) : Prop :=
  boardOk s.map ∧
  (∀ (i : Nat) (p : Player), s.players[i]? = some p → inBounds p.row p.col = true) ∧
  (∀ (i : Nat) (p : Player), s.players[i]? = some p → p.alive = true →
    holdsBlock s p.row p.col = false) ∧
  (∀ (i j : Nat) (p q : Player), s.players[i]? = some p → s.players[j]? = some q →
    p.alive = true → q.alive = true → p.row = q.row → p.col = q.col → i = j)

/-- The state `s'` has the board of `s`, and each of its combatants stands
where the combatant of the same roster index stands in `s` and is alive only if
that one is. -/
def PosStable (s s' : State) : Prop :=
  s'.map = s.map ∧
  ∀ (j : Nat) (q' : Player), s'.players[j]? = some q' →
    ∃ q, s.players[j]? = some q ∧ q'.row = q.row ∧ q'.col = q.col ∧
      (q'.alive = true → q.alive = true)

/-- The tile that `cloneMapFromTemplate` makes of a template value: 0 is the
empty tile, any other value `v` a block of strength `v`. -/
def tileOfTemplate (v : Int) : Tile :=
  if v = 0 then Tile.empty else Tile.block v

/-- A state in the middle of a finished match, with a damaged board, moved and
eliminated combatants and advanced turn data. -/
def wornState : State :=
  { phase := Phase.finished
    map := setTile (setTile cloneMapFromTemplate 2 5 Tile.empty) 1 3 (Tile.block 1)
    players :=
      [ { id := Dir.up, row := 4, col := 5, hp := 3, shield := Dir.left, aim := Dir.down,
          spriteMode := SpriteMode.attack, alive := true },
        { id := Dir.left, row := 5, col := 0, hp := 0, shield := Dir.up, aim := Dir.left,
          spriteMode := SpriteMode.idle, alive := false },
        { id := Dir.down, row := 9, col := 5, hp := 0, shield := Dir.down, aim := Dir.up,
          spriteMode := SpriteMode.run, alive := false },
        { id := Dir.right, row := 5, col := 10, hp := 0, shield := Dir.right, aim := Dir.right,
          spriteMode := SpriteMode.roll, alive := false } ]
    currentTurnIndex := 0
    round := 31 }

/-- One elementary change of the state made while the combatant at roster index
`actor` acts: a change of turn data only, a change of a shield, aim or sprite
mode, a move to a free cell, laser damage to a block, or a laser hit on a
living combatant other than the actor. -/
inductive Atomic (actor : Nat) : State → State → Prop where
  | turn {s s' : State} : s'.map = s.map → s'.players = s.players → Atomic actor s s'
  | cosmetic {s : State} (j : Nat) (f : Player → Player) :
      (∀ q, (f q).id = q.id ∧ (f q).row = q.row ∧ (f q).col = q.col ∧ (f q).hp = q.hp
        ∧ (f q).alive = q.alive) →
      Atomic actor s (updatePlayer s j f)
  | move {s : State} (j : Nat) (row col : Int) :
      inBounds row col = true → holdsBlock s row col = false → playerAt s row col = none →
      Atomic actor s (updatePlayer s j fun q => { q with row := row, col := col })
  | laser {s : State} (row col k : Int) :
      inBounds row col = true → tileAt s.map row col = some (Tile.block k) →
      Atomic actor s (applyLaserToBlock s k row col)
  | hit {s s' : State} (t : Nat) (q : Player) (direction : Dir) :
      t ≠ actor → s.players[t]? = some q → q.alive = true →
      hitPlayer s t direction = Outcome.ok (true, s') → Atomic actor s s'

/-- One round in which "up" fires down, "down" steps up and the two others
turn their shields to where they already are. -/
def approachRound : List (Action × Dir) :=
  [(Action.shoot, Dir.down), (Action.shield, Dir.left), (Action.move, Dir.up),
    (Action.shield, Dir.right)]

/-- One round in which "up" fires down and the three others turn their shields
to where they already are. -/
def volleyRound : List (Action × Dir) :=
  [(Action.shoot, Dir.down), (Action.shield, Dir.left), (Action.shield, Dir.down),
    (Action.shield, Dir.right)]

/-- A sequence of commands from the start of a match: "up" clears the two
blocks of column 5 and then hits "down" ten times while "down" walks up to
(1, 5); once "down" is eliminated there, "up" steps down onto that cell. -/
def graveCommands : List (Action × Dir) :=
  approachRound ++ approachRound ++ approachRound ++ approachRound ++ approachRound
    ++ approachRound ++ approachRound ++ approachRound ++ approachRound
    ++ volleyRound ++ volleyRound
    ++ [(Action.shoot, Dir.down), (Action.shield, Dir.left), (Action.shield, Dir.right),
      (Action.move, Dir.down)]

/-- The state of play after `graveCommands`: "up" is alive on (1, 5), the cell
on which the eliminated "down" lies. -/
def graveState : State :=
  { phase := Phase.playing
    map := setTile (setTile cloneMapFromTemplate 2 5 Tile.empty) 8 5 Tile.empty
    players :=
      [ { id := Dir.up, row := 1, col := 5, hp := 10, shield := Dir.up, aim := Dir.down,
          spriteMode := SpriteMode.idle, alive := true },
        { id := Dir.left, row := 5, col := 0, hp := 10, shield := Dir.left, aim := Dir.left,
          spriteMode := SpriteMode.idle, alive := true },
        { id := Dir.down, row := 1, col := 5, hp := 0, shield := Dir.down, aim := Dir.up,
          spriteMode := SpriteMode.idle, alive := false },
        { id := Dir.right, row := 5, col := 10, hp := 10, shield := Dir.right, aim := Dir.right,
          spriteMode := SpriteMode.idle, alive := true } ]
    currentTurnIndex := 1
    round := 13 }

/-- The hit points of a combatant are well-formed: an integer from 0 to
`DEFAULT_HP`, positive exactly when the combatant is alive. -/
def hpOk (q : Player) : Prop :=
  0 ≤ q.hp ∧ q.hp ≤ DEFAULT_HP ∧ (q.alive = true ↔ 0 < q.hp)

/-- The live-turn condition: if the phase is playing, at least two combatants
are alive and the combatant of the current turn slot is alive. -/
def LiveTurn (s : State) : Prop :=
  s.phase = Phase.playing →
    2 ≤ (alivePlayers s).length ∧ slotAlive s s.currentTurnIndex = true

/-! ## Board lemmas -/

theorem inBounds_iff (row col : Int) :
    inBounds row col = true ↔ 0 ≤ row ∧ row < 11 ∧ 0 ≤ col ∧ col < 11 := by
  simp [inBounds, MAP_ROWS, MAP_COLS, and_assoc]

theorem tileAt_of_boardOk {m : List (List Tile)} (hb : boardOk m) {row col : Int}
    (hin : inBounds row col = true) : ∃ t, tileAt m row col = some t := by
  rw [inBounds_iff] at hin
  obtain ⟨h1, h2⟩ := hb
  simp only [MAP_ROWS, MAP_COLS] at h1 h2
  have hr : row.toNat < m.length := by rw [h1]; omega
  unfold tileAt
  rw [List.getElem?_eq_getElem hr]
  have hc : col.toNat < (m[row.toNat]).length := by
    rw [h2 _ (List.getElem_mem hr)]; omega
  exact ⟨_, List.getElem?_eq_getElem hc⟩

theorem tileAt_setTile_self {m : List (List Tile)} {row col : Int} {t0 : Tile}
    (h : tileAt m row col = some t0) (t : Tile) :
    tileAt (setTile m row col t) row col = some t := by
  unfold tileAt at h
  unfold setTile tileAt
  cases hr : m[row.toNat]? with
  | none => simp [hr] at h
  | some r =>
    simp only [hr] at h ⊢
    have hlt : row.toNat < m.length := by
      by_contra hc
      rw [List.getElem?_eq_none (by omega)] at hr
      cases hr
    have hlt2 : col.toNat < r.length := by
      by_contra hc
      rw [List.getElem?_eq_none (by omega)] at h
      cases h
    simp [List.getElem?_set, hlt, hlt2]

theorem tileAt_setTile_ne (m : List (List Tile)) {row col r c : Int} (t : Tile)
    (hr : 0 ≤ row) (hc : 0 ≤ col) (hr2 : 0 ≤ r) (hc2 : 0 ≤ c) (hne : ¬ (r = row ∧ c = col)) :
    tileAt (setTile m row col t) r c = tileAt m r c := by
  unfold setTile tileAt
  cases hrow : m[row.toNat]? with
  | none => simp
  | some rw0 =>
    simp only
    by_cases h1 : r = row
    · subst h1
      have h2 : c.toNat ≠ col.toNat := by
        intro h; apply hne; exact ⟨rfl, by omega⟩
      have hlt : r.toNat < m.length := by
        by_contra hcn
        rw [List.getElem?_eq_none (by omega)] at hrow
        cases hrow
      simp [List.getElem?_set, hlt, hrow, Ne.symm h2]
    · have h2 : row.toNat ≠ r.toNat := by omega
      simp [List.getElem?_set, h2]

theorem boardOk_setTile {m : List (List Tile)} (hb : boardOk m) (row col : Int) (t : Tile) :
    boardOk (setTile m row col t) := by
  unfold setTile
  cases hrow : m[row.toNat]? with
  | none => simpa using hb
  | some r =>
    simp only
    obtain ⟨h1, h2⟩ := hb
    refine ⟨by simpa using h1, ?_⟩
    intro x hx
    rcases List.mem_or_eq_of_mem_set hx with h | h
    · exact h2 x h
    · subst h
      rw [List.length_set]
      exact h2 r (List.getElem?_mem hrow)

theorem blockTile_of_tileAt {s : State} {row col : Int} (hin : inBounds row col = true)
    {t : Tile} (ht : tileAt s.map row col = some t) :
    blockTile s row col =
      Outcome.ok (match t with | Tile.block k => some k | Tile.empty => none) := by
  unfold blockTile
  simp only [hin, Bool.not_true, Bool.false_eq_true, if_false, ht]
  cases t <;> rfl

theorem hitBlock_block {s : State} {row col strength : Int} (hin : inBounds row col = true)
    (ht : tileAt s.map row col = some (Tile.block strength)) :
    hitBlock row col s = applyLaserToBlock s strength row col := by
  unfold hitBlock
  rw [blockTile_of_tileAt hin ht]

theorem hitBlock_empty {s : State} {row col : Int} (hin : inBounds row col = true)
    (ht : tileAt s.map row col = some Tile.empty) :
    hitBlock row col s = s := by
  unfold hitBlock
  rw [blockTile_of_tileAt hin ht]

theorem applyLaserToBlock_tile {s : State} {row col strength : Int}
    (ht : tileAt s.map row col = some (Tile.block strength)) (h1 : 1 ≤ strength) :
    tileAt (applyLaserToBlock s strength row col).map row col =
      some (if strength - 1 ≤ 0 then Tile.empty else Tile.block (strength - 1)) := by
  unfold applyLaserToBlock
  have hne : strength ≠ -1 := by omega
  simp only [hne, if_false]
  by_cases h : strength - 1 ≤ 0
  · simp only [h, if_true]
    exact tileAt_setTile_self ht _
  · simp only [h, if_false]
    exact tileAt_setTile_self ht _

theorem hitBlock_iterate (row col : Int) (hin : inBounds row col = true) :
    ∀ (k : Nat) (s : State) (n : Int), (k : Int) ≤ n →
      tileAt s.map row col = some (Tile.block n) → 1 ≤ n →
      tileAt ((hitBlock row col)^[k] s).map row col =
        some (if (k : Int) = n then Tile.empty else Tile.block (n - k)) := by
  intro k
  induction k with
  | zero =>
    intro s n _ ht h1
    have h0 : ¬ (0 : Int) = n := by omega
    simp [h0, ht]
  | succ k ih =>
    intro s n hk ht h1
    rw [Function.iterate_succ_apply]
    rw [hitBlock_block hin ht]
    have hstep := applyLaserToBlock_tile ht h1
    by_cases h : n - 1 ≤ 0
    · have hn : n = 1 := by omega
      have hk0 : k = 0 := by omega
      subst hn; subst hk0
      simpa using hstep
    · simp only [h, if_false] at hstep
      have := ih (applyLaserToBlock s n row col) (n - 1) (by push_cast at hk; omega) hstep (by omega)
      rw [this]
      by_cases hkn : (k : Int) = n - 1
      · have : ((k + 1 : Nat) : Int) = n := by push_cast; omega
        simp [hkn, this]
      · have h2 : ¬ ((k + 1 : Nat) : Int) = n := by push_cast; omega
        simp only [hkn, h2, if_false]
        congr 2
        push_cast; ring

/-- C9 (block damage).  A shot whose ray reaches an in-bounds cell holding a
block of strength `strength` is consumed and applies `applyLaserToBlock` to it.
If the strength is the sentinel `-1` the state is not changed.  If it is at
least 1 the cell afterwards holds the empty tile when `strength - 1 ≤ 0` and a
block of strength `strength - 1` otherwise.  Consequently, hitting a block of
initial strength `strength ≥ 1` repeatedly leaves a block of strength
`strength - k` after `k < strength` hits and the empty tile after exactly
`strength` hits. -/
theorem block_damage (s : State) (row col strength : Int) (direction : Dir) (fuel : Nat)
    (hin : inBounds row col = true)
    (ht : tileAt s.map row col = some (Tile.block strength)) :
    shootLoop s direction (fuel + 1) row col
        = Outcome.ok (true, applyLaserToBlock s strength row col)
      ∧ (strength = -1 → applyLaserToBlock s strength row col = s)
      ∧ (1 ≤ strength →
          tileAt (applyLaserToBlock s strength row col).map row col
            = some (if strength - 1 ≤ 0 then Tile.empty else Tile.block (strength - 1)))
      ∧ (1 ≤ strength → ∀ k : Nat,
          ((k : Int) < strength →
            tileAt ((hitBlock row col)^[k] s).map row col = some (Tile.block (strength - k)))
          ∧ ((k : Int) = strength →
            tileAt ((hitBlock row col)^[k] s).map row col = some Tile.empty)) := by
  refine ⟨?_, ?_, ?_, ?_⟩
  · simp only [shootLoop, hin, if_true]
    rw [blockTile_of_tileAt hin ht]
  · intro h
    simp [applyLaserToBlock, h]
  · exact applyLaserToBlock_tile ht
  · intro h1 k
    constructor
    · intro hk
      rw [hitBlock_iterate row col hin k s strength (by omega) ht h1]
      have : ¬ (k : Int) = strength := by omega
      simp [this]
    · intro hk
      rw [hitBlock_iterate row col hin k s strength (by omega) ht h1]
      simp [hk]

/-! ## Roster lemmas -/

theorem findIdx_eq_none {q : Player → Bool} {l : List Player} :
    findIdx q l = none ↔ ∀ p ∈ l, q p = false := by
  induction l with
  | nil => simp [findIdx]
  | cons a l ih =>
    rw [findIdx]
    by_cases h : q a = true
    · simp [h]
    · simp [h, ih]

theorem findIdx_eq_some {q : Player → Bool} {l : List Player} {i : Nat}
    (h : findIdx q l = some i) :
    (∃ p, l[i]? = some p ∧ q p = true) ∧ ∀ j p, j < i → l[j]? = some p → q p = false := by
  induction l generalizing i with
  | nil => simp [findIdx] at h
  | cons a l ih =>
    rw [findIdx] at h
    by_cases hq : q a = true
    · simp only [hq, if_true, Option.some.injEq] at h
      subst h
      exact ⟨⟨a, by simp, hq⟩, by intro j p hj; omega⟩
    · simp only [hq, if_false, Option.map_eq_some', Bool.false_eq_true] at h
      obtain ⟨k, hk, rfl⟩ := h
      obtain ⟨⟨p, hp, hqp⟩, hmin⟩ := ih hk
      refine ⟨⟨p, by simpa using hp, hqp⟩, ?_⟩
      intro j p' hj hp'
      cases j with
      | zero =>
        simp at hp'
        subst hp'
        simpa using hq
      | succ j =>
        simp at hp'
        exact hmin j p' (by omega) hp'

theorem findIdx_of_first {q : Player → Bool} {l : List Player} {i : Nat} {p : Player}
    (hp : l[i]? = some p) (hq : q p = true)
    (hmin : ∀ j p', j < i → l[j]? = some p' → q p' = false) : findIdx q l = some i := by
  cases h : findIdx q l with
  | none =>
    rw [findIdx_eq_none] at h
    have := h p (List.getElem?_mem hp)
    rw [hq] at this; cases this
  | some k =>
    obtain ⟨⟨p', hp', hq'⟩, hmin'⟩ := findIdx_eq_some h
    rcases Nat.lt_trichotomy k i with hlt | heq | hgt
    · have := hmin k p' hlt hp'
      rw [hq'] at this; cases this
    · rw [heq]
    · have := hmin' i p hgt hp
      rw [hq] at this; cases this

@[simp]
theorem updatePlayer_map (s : State) (i : Nat) (f : Player → Player) :
    (updatePlayer s i f).map = s.map := by
  unfold updatePlayer; split <;> rfl

@[simp]
theorem updatePlayer_phase (s : State) (i : Nat) (f : Player → Player) :
    (updatePlayer s i f).phase = s.phase := by
  unfold updatePlayer; split <;> rfl

@[simp]
theorem updatePlayer_currentTurnIndex (s : State) (i : Nat) (f : Player → Player) :
    (updatePlayer s i f).currentTurnIndex = s.currentTurnIndex := by
  unfold updatePlayer; split <;> rfl

@[simp]
theorem updatePlayer_round (s : State) (i : Nat) (f : Player → Player) :
    (updatePlayer s i f).round = s.round := by
  unfold updatePlayer; split <;> rfl

@[simp]
theorem updatePlayer_length (s : State) (i : Nat) (f : Player → Player) :
    (updatePlayer s i f).players.length = s.players.length := by
  unfold updatePlayer; split <;> simp

theorem updatePlayer_get_self {s : State} {i : Nat} {p : Player} (f : Player → Player)
    (hp : s.players[i]? = some p) : (updatePlayer s i f).players[i]? = some (f p) := by
  have hlt : i < s.players.length := by
    by_contra hc
    rw [List.getElem?_eq_none (by omega)] at hp
    cases hp
  unfold updatePlayer
  simp [hp, List.getElem?_set, hlt]

theorem updatePlayer_get_ne (s : State) {i j : Nat} (f : Player → Player) (h : j ≠ i) :
    (updatePlayer s i f).players[j]? = s.players[j]? := by
  unfold updatePlayer
  split
  · simp [List.getElem?_set, Ne.symm h]
  · rfl

theorem updatePlayer_get (s : State) (i j : Nat) (f : Player → Player) :
    (updatePlayer s i f).players[j]? = if j = i then (s.players[j]?).map f else s.players[j]? := by
  by_cases h : j = i
  · subst h
    cases hp : s.players[j]? with
    | none => simp [updatePlayer, hp]
    | some p => simp [updatePlayer_get_self f hp]
  · simp [h, updatePlayer_get_ne s f h]

theorem playerAt_eq_none {s : State} {row col : Int} :
    playerAt s row col = none ↔
      ¬ ∃ q ∈ s.players, q.alive = true ∧ q.row = row ∧ q.col = col := by
  unfold playerAt
  rw [findIdx_eq_none]
  constructor
  · rintro h ⟨q, hq, ha, hr, hc⟩
    have := h q hq
    simp [ha, hr, hc] at this
  · intro h p hp
    by_contra hc
    apply h
    refine ⟨p, hp, ?_⟩
    simpa [and_assoc] using hc

/-- C7 (move).  For the combatant `p` at roster index `i` and a direction, with
the target cell `p` position plus the unit vector: `runAction` with the action
move is rejected (not consumed) if and only if the target is out of bounds, or
holds a block, or holds a living combatant.  On success `p` stands on the
target with `aim` the direction (and sprite mode run), its other fields, the
board, every other combatant and the turn data are unchanged; on rejection the
whole state is unchanged. -/
theorem move_spec (s : State) (i : Nat) (p : Player) (direction : Dir)
    (hb : boardOk s.map) (hp : s.players[i]? = some p) :
    ∃ consumed s', runAction s i Action.move direction = Outcome.ok (consumed, s') ∧
      (consumed = false ↔
        (inBounds (p.row + (DIRECTION direction).dr) (p.col + (DIRECTION direction).dc) = false
          ∨ (∃ k, tileAt s.map (p.row + (DIRECTION direction).dr)
                (p.col + (DIRECTION direction).dc) = some (Tile.block k))
          ∨ ∃ q ∈ s.players, q.alive = true ∧ q.row = p.row + (DIRECTION direction).dr
                ∧ q.col = p.col + (DIRECTION direction).dc)) ∧
      (consumed = true →
        s'.players[i]? = some { p with
            row := p.row + (DIRECTION direction).dr
            col := p.col + (DIRECTION direction).dc
            aim := direction
            spriteMode := SpriteMode.run }
          ∧ (∀ j, j ≠ i → s'.players[j]? = s.players[j]?)
          ∧ s'.players.length = s.players.length
          ∧ s'.map = s.map ∧ s'.phase = s.phase
          ∧ s'.currentTurnIndex = s.currentTurnIndex ∧ s'.round = s.round) ∧
      (consumed = false → s' = s) := by
  simp only [runAction, tryMove, hp]
  cases hin : inBounds (p.row + (DIRECTION direction).dr) (p.col + (DIRECTION direction).dc) with
  | false => exact ⟨false, s, by simp, by simp, by simp, by simp⟩
  | true =>
    obtain ⟨t, ht⟩ := tileAt_of_boardOk hb hin
    rw [blockTile_of_tileAt hin ht]
    cases t with
    | block k => exact ⟨false, s, by simp, by simp [ht], by simp, by simp⟩
    | empty =>
      cases hpa : playerAt s (p.row + (DIRECTION direction).dr)
          (p.col + (DIRECTION direction).dc) with
      | some t =>
        have hex : ∃ q ∈ s.players, q.alive = true ∧ q.row = p.row + (DIRECTION direction).dr
                ∧ q.col = p.col + (DIRECTION direction).dc := by
          by_contra hno
          rw [playerAt_eq_none.mpr hno] at hpa
          cases hpa
        exact ⟨false, s, by simp, by simp [hex], by simp, by simp⟩
      | none =>
        have hno := playerAt_eq_none.mp hpa
        refine ⟨true, _, rfl, ?_, ?_, by simp⟩
        · simp only [Bool.true_eq_false, false_iff, ht, Option.some.injEq, exists_false,
            false_or, reduceCtorEq]
          exact hno
        · intro _
          refine ⟨?_, ?_, by simp, by simp, by simp, by simp, by simp⟩
          · rw [updatePlayer_get_self _ (updatePlayer_get_self _ hp)]
          · intro j hj
            rw [updatePlayer_get_ne _ _ hj, updatePlayer_get_ne _ _ hj]

/-! ## The ray walk -/

theorem holdsLiving_eq_false {s : State} {row col : Int} :
    holdsLiving s row col = false ↔ playerAt s row col = none := by
  unfold holdsLiving playerAt
  rw [findIdx_eq_none, List.any_eq_false]
  constructor
  · intro h p hp
    simpa using h p hp
  · intro h p hp
    simpa using h p hp

theorem holdsBlock_eq_true {s : State} {row col : Int} :
    holdsBlock s row col = true ↔ ∃ k, tileAt s.map row col = some (Tile.block k) := by
  unfold holdsBlock
  cases h : tileAt s.map row col with
  | none => simp
  | some t => cases t <;> simp

theorem raySpan_step (direction : Dir) {row col : Int} (hin : inBounds row col = true) :
    raySpan direction (row + (DIRECTION direction).dr) (col + (DIRECTION direction).dc) + 1
      = raySpan direction row col := by
  rw [inBounds_iff] at hin
  cases direction <;> simp only [raySpan, DIRECTION, MAP_ROWS, MAP_COLS] <;> omega

theorem raySpan_le (direction : Dir) {row col : Int} (hin : inBounds row col = true) :
    raySpan direction row col ≤ 11 := by
  rw [inBounds_iff] at hin
  cases direction <;> simp only [raySpan, DIRECTION, MAP_ROWS, MAP_COLS] <;> omega

theorem rayCell_succ (row col : Int) (direction : Dir) (j : Nat) :
    rayCell (row + (DIRECTION direction).dr) (col + (DIRECTION direction).dc) direction j
      = rayCell row col direction (j + 1) := by
  unfold rayCell
  ext <;> simp only <;> push_cast <;> ring

theorem rayCell_zero (row col : Int) (direction : Dir) :
    rayCell row col direction 0 = (row, col) := by
  simp [rayCell]

/-- The three ways in which the loop of `shoot`, started on the cell `start`,
ends: off the board, on a block, or on a living combatant. -/
theorem shootLoop_spec {s : State} (hb : boardOk s.map) (direction : Dir) :
    ∀ (fuel : Nat) (row col : Int),
      (inBounds row col = true → raySpan direction row col ≤ fuel) →
      ∃ n : Nat,
        (∀ j, j < n → inBounds (rayCell row col direction j).1 (rayCell row col direction j).2 = true
            ∧ obstruction s (rayCell row col direction j) = false) ∧
        ((inBounds (rayCell row col direction n).1 (rayCell row col direction n).2 = false
            ∧ shootLoop s direction fuel row col = Outcome.ok (true, s))
          ∨ (inBounds (rayCell row col direction n).1 (rayCell row col direction n).2 = true
            ∧ ∃ k, tileAt s.map (rayCell row col direction n).1 (rayCell row col direction n).2
                  = some (Tile.block k)
              ∧ shootLoop s direction fuel row col
                  = Outcome.ok (true, applyLaserToBlock s k (rayCell row col direction n).1
                      (rayCell row col direction n).2))
          ∨ (inBounds (rayCell row col direction n).1 (rayCell row col direction n).2 = true
            ∧ tileAt s.map (rayCell row col direction n).1 (rayCell row col direction n).2
                  = some Tile.empty
            ∧ ∃ t, playerAt s (rayCell row col direction n).1 (rayCell row col direction n).2
                  = some t
              ∧ shootLoop s direction fuel row col = hitPlayer s t direction)) := by
  intro fuel
  induction fuel with
  | zero =>
    intro row col hfuel
    cases hin : inBounds row col with
    | false =>
      exact ⟨0, by intro j hj; omega, Or.inl ⟨by simpa [rayCell_zero] using hin, by simp [shootLoop, hin]⟩⟩
    | true =>
      have h1 := hfuel hin
      have h2 := raySpan_step direction hin
      omega
  | succ fuel ih =>
    intro row col hfuel
    cases hin : inBounds row col with
    | false =>
      exact ⟨0, by intro j hj; omega, Or.inl ⟨by simpa [rayCell_zero] using hin, by simp [shootLoop, hin]⟩⟩
    | true =>
      obtain ⟨t, ht⟩ := tileAt_of_boardOk hb hin
      cases t with
      | block k =>
        refine ⟨0, by intro j hj; omega, Or.inr (Or.inl ⟨by simpa [rayCell_zero] using hin, k, ?_, ?_⟩)⟩
        · simpa [rayCell_zero] using ht
        · simp only [shootLoop, hin, if_true, rayCell_zero]
          rw [blockTile_of_tileAt hin ht]
      | empty =>
        cases hpa : playerAt s row col with
        | some t =>
          refine ⟨0, by intro j hj; omega,
            Or.inr (Or.inr ⟨by simpa [rayCell_zero] using hin, ?_, t, ?_, ?_⟩)⟩
          · simpa [rayCell_zero] using ht
          · simpa [rayCell_zero] using hpa
          · simp only [shootLoop, hin, if_true]
            rw [blockTile_of_tileAt hin ht]
            simp only [hpa]
        | none =>
          have hstep : shootLoop s direction (fuel + 1) row col
              = shootLoop s direction fuel (row + (DIRECTION direction).dr)
                  (col + (DIRECTION direction).dc) := by
            simp only [shootLoop, hin, if_true]
            rw [blockTile_of_tileAt hin ht]
            simp only [hpa]
          have hfuel2 : inBounds (row + (DIRECTION direction).dr) (col + (DIRECTION direction).dc) = true →
              raySpan direction (row + (DIRECTION direction).dr) (col + (DIRECTION direction).dc) ≤ fuel := by
            intro _
            have h1 := hfuel hin
            have h2 := raySpan_step direction hin
            omega
          obtain ⟨n, hpre, hres⟩ := ih _ _ hfuel2
          have hobs0 : obstruction s (row, col) = false := by
            have hb0 : holdsBlock s row col = false := by
              simp [holdsBlock, ht]
            simp [obstruction, hb0, holdsLiving_eq_false.mpr hpa]
          refine ⟨n + 1, ?_, ?_⟩
          · intro j hj
            cases j with
            | zero => rw [rayCell_zero]; exact ⟨hin, hobs0⟩
            | succ j =>
              rw [← rayCell_succ]
              exact hpre j (by omega)
          · rw [← rayCell_succ, hstep]
            exact hres

theorem inBounds_between {row col : Int} {direction : Dir} {j k : Nat}
    (h0 : inBounds row col = true)
    (hk : inBounds (rayCell row col direction k).1 (rayCell row col direction k).2 = true)
    (hjk : j ≤ k) :
    inBounds (rayCell row col direction j).1 (rayCell row col direction j).2 = true := by
  rw [inBounds_iff] at h0 hk ⊢
  cases direction <;> simp only [rayCell, DIRECTION] at hk ⊢ <;> omega

theorem applyLaserToBlock_players (s : State) (k row col : Int) :
    (applyLaserToBlock s k row col).players = s.players := by
  unfold applyLaserToBlock
  split
  · rfl
  · simp only; split <;> rfl

theorem applyLaserToBlock_turn (s : State) (k row col : Int) :
    (applyLaserToBlock s k row col).phase = s.phase
      ∧ (applyLaserToBlock s k row col).currentTurnIndex = s.currentTurnIndex
      ∧ (applyLaserToBlock s k row col).round = s.round := by
  unfold applyLaserToBlock
  split
  · exact ⟨rfl, rfl, rfl⟩
  · simp only; split <;> exact ⟨rfl, rfl, rfl⟩

theorem applyLaserToBlock_boardOk {s : State} (hb : boardOk s.map) (k row col : Int) :
    boardOk (applyLaserToBlock s k row col).map := by
  unfold applyLaserToBlock
  split
  · exact hb
  · simp only; split <;> exact boardOk_setTile hb _ _ _

theorem applyLaserToBlock_tile_ne (s : State) (k : Int) {row col r c : Int}
    (hin : inBounds row col = true) (hin2 : inBounds r c = true)
    (hne : (r, c) ≠ (row, col)) :
    tileAt (applyLaserToBlock s k row col).map r c = tileAt s.map r c := by
  rw [inBounds_iff] at hin hin2
  have hne2 : ¬ (r = row ∧ c = col) := by
    rintro ⟨h1, h2⟩; exact hne (by rw [h1, h2])
  unfold applyLaserToBlock
  split
  · rfl
  · simp only
    split <;> exact tileAt_setTile_ne _ _ hin.1 hin.2.2.1 hin2.1 hin2.2.2.1 hne2

theorem hitPlayer_spec {s : State} {t : Nat} {q : Player} (direction : Dir)
    (hq : s.players[t]? = some q) :
    ∃ s', hitPlayer s t direction = Outcome.ok (true, s') ∧
      s'.map = s.map ∧ s'.phase = s.phase ∧ s'.currentTurnIndex = s.currentTurnIndex ∧
      s'.round = s.round ∧ s'.players.length = s.players.length ∧
      (∀ j, j ≠ t → s'.players[j]? = s.players[j]?) ∧
      s'.players[t]? = some
        (if q.shield = OPPOSITE direction then q
          else if q.hp - LASER_DAMAGE ≤ 0 then { q with hp := 0, alive := false }
          else { q with hp := q.hp - LASER_DAMAGE }) := by
  unfold hitPlayer
  simp only [hq]
  by_cases hs : q.shield = OPPOSITE direction
  · simp only [hs, if_true]
    exact ⟨s, rfl, rfl, rfl, rfl, rfl, rfl, fun _ _ => rfl, hq⟩
  · simp only [hs, if_false]
    by_cases hh : q.hp - LASER_DAMAGE ≤ 0
    · simp only [hh, if_true]
      exact ⟨_, rfl, by simp, by simp, by simp, by simp, by simp,
        fun j hj => updatePlayer_get_ne _ _ hj, updatePlayer_get_self _ hq⟩
    · simp only [hh, if_false]
      exact ⟨_, rfl, by simp, by simp, by simp, by simp, by simp,
        fun j hj => updatePlayer_get_ne _ _ hj, updatePlayer_get_self _ hq⟩

theorem playerAt_eq_some {s : State} {row col : Int} {t : Nat} (h : playerAt s row col = some t) :
    (∃ q, s.players[t]? = some q ∧ q.alive = true ∧ q.row = row ∧ q.col = col) ∧
      ∀ j q, j < t → s.players[j]? = some q → ¬ (q.alive = true ∧ q.row = row ∧ q.col = col) := by
  obtain ⟨⟨q, hq, hp⟩, hmin⟩ := findIdx_eq_some h
  refine ⟨⟨q, hq, by simpa [and_assoc] using hp⟩, ?_⟩
  intro j q' hj hq' hc
  have := hmin j q' hj hq'
  simp [hc.1, hc.2.1, hc.2.2] at this

theorem playerAt_of_first {s : State} {row col : Int} {t : Nat} {q : Player}
    (hq : s.players[t]? = some q) (ha : q.alive = true) (hr : q.row = row) (hc : q.col = col)
    (hmin : ∀ j q', j < t → s.players[j]? = some q' →
      ¬ (q'.alive = true ∧ q'.row = row ∧ q'.col = col)) :
    playerAt s row col = some t := by
  apply findIdx_of_first hq
  · simp [ha, hr, hc]
  · intro j q' hj hq'
    have := hmin j q' hj hq'
    by_contra hcon
    apply this
    simpa [and_assoc] using hcon

theorem obstruction_of_block {s : State} {cell : Int × Int} {k : Int}
    (hin : inBounds cell.1 cell.2 = true) (ht : tileAt s.map cell.1 cell.2 = some (Tile.block k)) :
    obstruction s cell = true := by
  simp [obstruction, hin, holdsBlock, ht]

theorem obstruction_of_playerAt {s : State} {cell : Int × Int} {t : Nat}
    (hin : inBounds cell.1 cell.2 = true) (ht : playerAt s cell.1 cell.2 = some t) :
    obstruction s cell = true := by
  have : holdsLiving s cell.1 cell.2 = true := by
    cases h : holdsLiving s cell.1 cell.2 with
    | true => rfl
    | false => rw [holdsLiving_eq_false.mp h] at ht; cases ht
  simp [obstruction, hin, this]

/-- The first obstruction is unique: it is the cell on which the loop stops. -/
theorem firstObstruction_unique {s : State} {row col : Int} {direction : Dir} {k n : Nat}
    (hk : FirstObstruction s row col direction k)
    (hpre : ∀ j, j < n → obstruction s (rayCell row col direction (j + 1)) = false)
    (hn : obstruction s (rayCell row col direction (n + 1)) = true) : k = n + 1 := by
  obtain ⟨h1, h2, h3⟩ := hk
  rcases Nat.lt_trichotomy k (n + 1) with h | h | h
  · have := hpre (k - 1) (by omega)
    rw [show k - 1 + 1 = k by omega, h2] at this
    cases this
  · exact h
  · have := h3 (n + 1) (by omega) h
    rw [hn] at this
    cases this

/-- A first obstruction on the ray of a shooter standing in bounds is reached
by the loop: the ray cannot leave the board before it. -/
theorem firstObstruction_reached {s : State} {row col : Int} {direction : Dir} {k n : Nat}
    (h0 : inBounds row col = true) (hk : FirstObstruction s row col direction k)
    (hpre : ∀ j, j < n → obstruction s (rayCell row col direction (j + 1)) = false)
    (hout : inBounds (rayCell row col direction (n + 1)).1
      (rayCell row col direction (n + 1)).2 = false) : False := by
  obtain ⟨hk1, hk2, hk3⟩ := hk
  have hink : inBounds (rayCell row col direction k).1 (rayCell row col direction k).2 = true := by
    simp only [obstruction, Bool.and_eq_true] at hk2
    exact hk2.1
  by_cases hkn : k ≤ n
  · have := hpre (k - 1) (by omega)
    rw [show k - 1 + 1 = k by omega, hk2] at this
    cases this
  · have := inBounds_between (j := n + 1) h0 hink (by omega)
    rw [hout] at this
    cases this

/-- How a shot ends, in terms of the cells of its ray. -/
theorem shoot_cases {s : State} {i : Nat} {p : Player} {direction : Dir}
    (hb : boardOk s.map) (hp : s.players[i]? = some p) (hd : direction ≠ p.shield) :
    ∃ n : Nat,
      (∀ j, j < n → inBounds (rayCell p.row p.col direction (j + 1)).1
            (rayCell p.row p.col direction (j + 1)).2 = true
          ∧ obstruction s (rayCell p.row p.col direction (j + 1)) = false) ∧
      ((inBounds (rayCell p.row p.col direction (n + 1)).1
            (rayCell p.row p.col direction (n + 1)).2 = false
          ∧ shoot s i direction = Outcome.ok (true, s))
        ∨ (inBounds (rayCell p.row p.col direction (n + 1)).1
            (rayCell p.row p.col direction (n + 1)).2 = true
          ∧ ∃ k, tileAt s.map (rayCell p.row p.col direction (n + 1)).1
                (rayCell p.row p.col direction (n + 1)).2 = some (Tile.block k)
            ∧ shoot s i direction
                = Outcome.ok (true, applyLaserToBlock s k (rayCell p.row p.col direction (n + 1)).1
                    (rayCell p.row p.col direction (n + 1)).2))
        ∨ (inBounds (rayCell p.row p.col direction (n + 1)).1
            (rayCell p.row p.col direction (n + 1)).2 = true
          ∧ tileAt s.map (rayCell p.row p.col direction (n + 1)).1
                (rayCell p.row p.col direction (n + 1)).2 = some Tile.empty
          ∧ ∃ t, playerAt s (rayCell p.row p.col direction (n + 1)).1
                (rayCell p.row p.col direction (n + 1)).2 = some t
            ∧ shoot s i direction = hitPlayer s t direction)) := by
  have hfuel : inBounds (p.row + (DIRECTION direction).dr) (p.col + (DIRECTION direction).dc) = true →
      raySpan direction (p.row + (DIRECTION direction).dr) (p.col + (DIRECTION direction).dc)
        ≤ MAP_ROWS.toNat + MAP_COLS.toNat := by
    intro h
    have := raySpan_le direction h
    simp only [MAP_ROWS, MAP_COLS]
    omega
  obtain ⟨n, hpre, hres⟩ := shootLoop_spec hb direction _ _ _ hfuel
  have hshoot : shoot s i direction = shootLoop s direction (MAP_ROWS.toNat + MAP_COLS.toNat)
      (p.row + (DIRECTION direction).dr) (p.col + (DIRECTION direction).dc) := by
    simp only [shoot, hp, hd, if_false]
  refine ⟨n, ?_, ?_⟩
  · intro j hj
    have := hpre j hj
    rwa [rayCell_succ] at this
  · rw [rayCell_succ] at hres
    rw [hshoot]
    exact hres

/-- C1 (single-obstruction law).  For a board that is a full grid, the
combatant `p` at roster index `i` and a direction other than `p.shield`,
`shoot` returns consumed with a state `s'` such that: the turn data and the
shape of board and roster are those of `s`; if the `k`-th ray cell is the first
obstruction, every other in-bounds cell keeps its tile and every combatant not
standing on that cell keeps its whole record; if no ray cell is an obstruction,
`s' = s`; and if `p` is in bounds, the first obstruction holds a block of
strength 1 and the next ray cell holds a living combatant, then the block cell
is empty afterwards and the roster (so every hp) is unchanged. -/
theorem single_obstruction (s : State) (i : Nat) (p : Player) (direction : Dir)
    (hb : boardOk s.map) (hp : s.players[i]? = some p) (hd : direction ≠ p.shield) :
    ∃ s', shoot s i direction = Outcome.ok (true, s') ∧
      s'.phase = s.phase ∧ s'.currentTurnIndex = s.currentTurnIndex ∧ s'.round = s.round ∧
      s'.players.length = s.players.length ∧ boardOk s'.map ∧
      (∀ k, FirstObstruction s p.row p.col direction k →
        (∀ r c, inBounds r c = true → (r, c) ≠ rayCell p.row p.col direction k →
          tileAt s'.map r c = tileAt s.map r c) ∧
        (∀ (j : Nat) (q : Player), s.players[j]? = some q →
          (q.row, q.col) ≠ rayCell p.row p.col direction k →
          s'.players[j]? = some q)) ∧
      ((∀ k, 1 ≤ k → obstruction s (rayCell p.row p.col direction k) = false) → s' = s) ∧
      (∀ k, FirstObstruction s p.row p.col direction k → inBounds p.row p.col = true →
        tileAt s.map (rayCell p.row p.col direction k).1 (rayCell p.row p.col direction k).2
          = some (Tile.block 1) →
        holdsLiving s (rayCell p.row p.col direction (k + 1)).1
          (rayCell p.row p.col direction (k + 1)).2 = true →
        tileAt s'.map (rayCell p.row p.col direction k).1 (rayCell p.row p.col direction k).2
          = some Tile.empty ∧ s'.players = s.players) := by
  obtain ⟨n, hpre, hres⟩ := shoot_cases hb hp hd
  have hpre2 : ∀ j, j < n → obstruction s (rayCell p.row p.col direction (j + 1)) = false :=
    fun j hj => (hpre j hj).2
  rcases hres with ⟨hout, hsh⟩ | ⟨hin, bk, ht, hsh⟩ | ⟨hin, ht, t, hpa, hsh⟩
  · -- the ray leaves the board
    refine ⟨s, hsh, rfl, rfl, rfl, rfl, hb, ?_, fun _ => rfl, ?_⟩
    · intro k _
      exact ⟨fun _ _ _ _ => rfl, fun j q hq _ => hq⟩
    · intro k hk h0 _ _
      exact (firstObstruction_reached h0 hk hpre2 hout).elim
  · -- the ray stops on a block
    have hobs := obstruction_of_block hin ht
    obtain ⟨ht1, ht2, ht3⟩ := applyLaserToBlock_turn s bk
      (rayCell p.row p.col direction (n + 1)).1 (rayCell p.row p.col direction (n + 1)).2
    refine ⟨_, hsh, ht1, ht2, ht3, by rw [applyLaserToBlock_players],
      applyLaserToBlock_boardOk hb _ _ _, ?_, ?_, ?_⟩
    · intro k hk
      have hkn := firstObstruction_unique hk hpre2 hobs
      subst hkn
      refine ⟨fun r c hrc hne => applyLaserToBlock_tile_ne s bk hin hrc hne, ?_⟩
      intro j q hq _
      rw [applyLaserToBlock_players]
      exact hq
    · intro hno
      have := hno (n + 1) (by omega)
      rw [hobs] at this
      cases this
    · intro k hk _ hbl _
      have hkn := firstObstruction_unique hk hpre2 hobs
      subst hkn
      rw [ht] at hbl
      cases hbl
      refine ⟨?_, applyLaserToBlock_players _ _ _ _⟩
      have := applyLaserToBlock_tile ht (le_refl 1)
      simpa using this
  · -- the ray stops on a living combatant
    have hobs := obstruction_of_playerAt hin hpa
    obtain ⟨⟨qt, hqt, hqa, hqr, hqc⟩, _⟩ := playerAt_eq_some hpa
    obtain ⟨s', hs', hmap, hph, hidx, hrnd, hlen, hoth, _⟩ := hitPlayer_spec direction hqt
    refine ⟨s', by rw [hsh, hs'], hph, hidx, hrnd, hlen, by rw [hmap]; exact hb, ?_, ?_, ?_⟩
    · intro k hk
      have hkn := firstObstruction_unique hk hpre2 hobs
      subst hkn
      refine ⟨fun r c _ _ => by rw [hmap], ?_⟩
      intro j q hq hne
      have hjt : j ≠ t := by
        rintro rfl
        rw [hqt] at hq
        cases hq
        exact hne (by rw [hqr, hqc])
      rw [hoth j hjt]
      exact hq
    · intro hno
      have := hno (n + 1) (by omega)
      rw [hobs] at this
      cases this
    · intro k hk _ hbl _
      have hkn := firstObstruction_unique hk hpre2 hobs
      subst hkn
      rw [ht] at hbl
      cases hbl

/-- C2 (shield law).  Let the shooter `p` (roster index `i`) stand in bounds and
fire in a direction other than its own shield, and let the first obstruction of
the ray be a cell without a block on which the living combatant `q` (roster
index `t`, the first living one there, with `hp > 0` as every living combatant
has) stands.  Then the shot is consumed; if `q.shield` is the opposite of the
travel direction the record of `q` is unchanged (same hp, still alive); for any
other value of `q.shield` the hp of `q` is lowered by exactly 1 and `q` stays
alive exactly when hp is still positive. -/
theorem shield_law (s : State) (i : Nat) (p : Player) (direction : Dir) (k t : Nat) (q : Player)
    (hb : boardOk s.map) (hp : s.players[i]? = some p) (hd : direction ≠ p.shield)
    (h0 : inBounds p.row p.col = true)
    (hk : FirstObstruction s p.row p.col direction k)
    (hnb : holdsBlock s (rayCell p.row p.col direction k).1 (rayCell p.row p.col direction k).2
      = false)
    (hq : s.players[t]? = some q) (hqa : q.alive = true)
    (hqpos : (q.row, q.col) = rayCell p.row p.col direction k)
    (hfirst : ∀ (j : Nat) (q' : Player), j < t → s.players[j]? = some q' →
      ¬ (q'.alive = true ∧ (q'.row, q'.col) = rayCell p.row p.col direction k))
    (hhp : 0 < q.hp) :
    ∃ s', shoot s i direction = Outcome.ok (true, s') ∧
      (q.shield = OPPOSITE direction → s'.players[t]? = some q) ∧
      (q.shield ≠ OPPOSITE direction →
        s'.players[t]? = some { q with hp := q.hp - 1, alive := decide (0 < q.hp - 1) }) := by
  obtain ⟨n, hpre, hres⟩ := shoot_cases hb hp hd
  have hpre2 : ∀ j, j < n → obstruction s (rayCell p.row p.col direction (j + 1)) = false :=
    fun j hj => (hpre j hj).2
  rcases hres with ⟨hout, _⟩ | ⟨hin, bk, ht, _⟩ | ⟨hin, ht, t', hpa, hsh⟩
  · exact (firstObstruction_reached h0 hk hpre2 hout).elim
  · have hkn := firstObstruction_unique hk hpre2 (obstruction_of_block hin ht)
    subst hkn
    simp [holdsBlock, ht] at hnb
  · have hkn := firstObstruction_unique hk hpre2 (obstruction_of_playerAt hin hpa)
    subst hkn
    have hqr : q.row = (rayCell p.row p.col direction (n + 1)).1 := by rw [← hqpos]
    have hqc : q.col = (rayCell p.row p.col direction (n + 1)).2 := by rw [← hqpos]
    have hpa2 : playerAt s (rayCell p.row p.col direction (n + 1)).1
        (rayCell p.row p.col direction (n + 1)).2 = some t := by
      apply playerAt_of_first hq hqa hqr hqc
      intro j q' hj hq' hcon
      apply hfirst j q' hj hq'
      exact ⟨hcon.1, by rw [hcon.2.1, hcon.2.2]⟩
    rw [hpa2] at hpa
    cases hpa
    obtain ⟨s', hs', _, _, _, _, _, _, hself⟩ := hitPlayer_spec direction hq
    refine ⟨s', by rw [hsh, hs'], ?_, ?_⟩
    · intro hsd
      rw [hself]; simp [hsd]
    · intro hsd
      rw [hself]
      simp only [hsd, if_false, LASER_DAMAGE]
      by_cases hh : q.hp - 1 ≤ 0
      · have h1 : q.hp - 1 = 0 := by omega
        simp [hh, h1]
      · have h1 : 0 < q.hp - 1 := by omega
        simp [hh, h1, hqa]

/-! ## Turn data is touched by `checkWinner` and `spendTurn` only -/

theorem hitPlayer_turn {s s' : State} {t : Nat} {direction : Dir} {b : Bool}
    (h : hitPlayer s t direction = Outcome.ok (b, s')) :
    b = true ∧ s'.phase = s.phase ∧ s'.currentTurnIndex = s.currentTurnIndex
      ∧ s'.round = s.round := by
  unfold hitPlayer at h
  cases hq : s.players[t]? with
  | none => simp [hq] at h
  | some q =>
    obtain ⟨s2, hs2, _, h1, h2, h3, _⟩ := hitPlayer_spec direction hq
    unfold hitPlayer at hs2
    rw [hs2] at h
    cases h
    exact ⟨rfl, h1, h2, h3⟩

theorem shootLoop_turn {s : State} {direction : Dir} :
    ∀ (fuel : Nat) (row col : Int) (b : Bool) (s' : State),
      shootLoop s direction fuel row col = Outcome.ok (b, s') →
      b = true ∧ s'.phase = s.phase ∧ s'.currentTurnIndex = s.currentTurnIndex
        ∧ s'.round = s.round := by
  intro fuel
  induction fuel with
  | zero =>
    intro row col b s' h
    unfold shootLoop at h
    split at h
    · cases h
    · cases h; exact ⟨rfl, rfl, rfl, rfl⟩
  | succ fuel ih =>
    intro row col b s' h
    unfold shootLoop at h
    split at h
    · split at h
      · cases h
      · cases h
      · cases h
        exact ⟨rfl, applyLaserToBlock_turn _ _ _ _⟩
      · split at h
        · exact hitPlayer_turn h
        · exact ih _ _ _ _ h
    · cases h; exact ⟨rfl, rfl, rfl, rfl⟩

theorem shoot_turn {s s' : State} {i : Nat} {direction : Dir} {b : Bool}
    (h : shoot s i direction = Outcome.ok (b, s')) :
    s'.phase = s.phase ∧ s'.currentTurnIndex = s.currentTurnIndex ∧ s'.round = s.round := by
  unfold shoot at h
  split at h
  · cases h
  · dsimp only at h
    split at h
    · cases h; exact ⟨rfl, rfl, rfl⟩
    · exact (shootLoop_turn _ _ _ _ _ h).2

theorem tryMove_turn {s s' : State} {i : Nat} {direction : Dir} {b : Bool}
    (h : tryMove s i direction = Outcome.ok (b, s')) :
    s'.phase = s.phase ∧ s'.currentTurnIndex = s.currentTurnIndex ∧ s'.round = s.round := by
  unfold tryMove at h
  split at h
  · cases h
  · dsimp only at h
    split at h
    · cases h; exact ⟨rfl, rfl, rfl⟩
    · split at h
      · cases h
      · cases h
      · cases h; exact ⟨rfl, rfl, rfl⟩
      · split at h
        · cases h; exact ⟨rfl, rfl, rfl⟩
        · cases h; exact ⟨by simp, by simp, by simp⟩

theorem runAction_turn {s s' : State} {i : Nat} {action : Action} {direction : Dir} {b : Bool}
    (h : runAction s i action direction = Outcome.ok (b, s')) :
    s'.phase = s.phase ∧ s'.currentTurnIndex = s.currentTurnIndex ∧ s'.round = s.round := by
  cases action with
  | move =>
    simp only [runAction] at h
    split at h
    · rename_i s1 hm
      cases h
      have := tryMove_turn hm
      simpa using this
    · exact tryMove_turn h
  | shield =>
    simp only [runAction] at h
    split at h
    · cases h
    · cases h; exact ⟨by simp, by simp, by simp⟩
  | shoot =>
    simp only [runAction] at h
    split at h
    · cases h
    · have := shoot_turn h
      simpa using this
  | other =>
    simp only [runAction] at h
    cases h; exact ⟨rfl, rfl, rfl⟩

/-- C8 (no advance after a rejected action).  In a playing state whose active
combatant is the roster index `i`, if `runAction` reports not consumed with the
state `s1`, then `executeActiveCommand` returns a state with the same
`currentTurnIndex`, `round` and `phase` as before (so the same combatant is
active and no win check has set the phase); it is `s1` when the active
combatant is alive.  An action value other than move, shield and shoot is
always reported not consumed. -/
theorem no_advance_after_rejected (s : State) (action : Action) (direction : Dir) (i : Nat)
    (s1 : State) (hphase : s.phase = Phase.playing) (hact : getActivePlayer s = some i)
    (hrun : runAction s i action direction = Outcome.ok (false, s1)) :
    (∃ s', executeActiveCommand s action direction = Outcome.ok s' ∧
      s'.currentTurnIndex = s.currentTurnIndex ∧ s'.round = s.round ∧ s'.phase = s.phase ∧
      (aliveRef s (some i) = true → s' = s1)) ∧
    runAction s i Action.other direction = Outcome.ok (false, s) := by
  refine ⟨?_, rfl⟩
  have hturn := runAction_turn hrun
  unfold executeActiveCommand
  simp only [hphase, ne_eq, not_true_eq_false, if_false, hact]
  cases ha : aliveRef s (some i) with
  | false => exact ⟨s, by simp, rfl, rfl, hphase, by simp⟩
  | true =>
    simp only [Bool.not_true, Bool.false_eq_true, if_false, hrun]
    exact ⟨s1, rfl, hturn.2.1, hturn.2.2, by rw [hturn.1, hphase], fun _ => rfl⟩

/-- Witness of C8: at the start of a match "up" tries to step off the board. -/
theorem no_advance_after_rejected_witness :
    (∃ s', executeActiveCommand (startMatch idleState) Action.move Dir.up = Outcome.ok s' ∧
      s'.currentTurnIndex = 0 ∧ s'.round = 1 ∧ s'.phase = Phase.playing ∧
      (aliveRef (startMatch idleState) (some 0) = true → s' = startMatch idleState)) ∧
    runAction (startMatch idleState) 0 Action.other Dir.up
      = Outcome.ok (false, startMatch idleState) :=
  no_advance_after_rejected (startMatch idleState) Action.move Dir.up 0 (startMatch idleState)
    (by decide) (by decide) (by decide)

/-- Witness of C9: the block of strength 2 on (1, 3) of the template is gone
after exactly two hits. -/
theorem block_damage_witness :
    tileAt ((hitBlock 1 3)^[2] (startMatch idleState)).map 1 3 = some Tile.empty :=
  ((block_damage (startMatch idleState) 1 3 2 Dir.down 0 (by decide) (by decide)).2.2.2
    (by decide) 2).2 (by decide)

/-- Witness of C7: at the start of a match "up" steps down. -/
theorem move_spec_witness :
    ∃ consumed s', runAction (startMatch idleState) 0 Action.move Dir.down
        = Outcome.ok (consumed, s') ∧ (consumed = false → s' = startMatch idleState) :=
  let ⟨consumed, s', h1, _, _, h4⟩ :=
    move_spec (startMatch idleState) 0 _ Dir.down (by decide) rfl
  ⟨consumed, s', h1, h4⟩

/-- Witness of C1: "up" fires down at the block on (2, 5) with "left" standing
right behind it; the block is destroyed and the roster is untouched. -/
theorem single_obstruction_witness :
    ∃ s', shoot lineupState 0 Dir.down = Outcome.ok (true, s') ∧
      tileAt s'.map 2 5 = some Tile.empty ∧ s'.players = lineupState.players := by
  obtain ⟨s', h1, _, _, _, _, _, _, _, h9⟩ :=
    single_obstruction lineupState 0 _ Dir.down (by decide) rfl (by decide)
  exact ⟨s', h1, h9 2 (by decide) (by decide) (by decide) (by decide)⟩

/-- Witness of C2: "up" fires down at "down" standing right below it with its
shield facing down; the hit costs one hp. -/
theorem shield_law_witness :
    ∃ s', shoot duelState 0 Dir.down = Outcome.ok (true, s') ∧
      Option.map Player.hp s'.players[2]? = some 9 := by
  have hfirst : ∀ (j : Nat) (q' : Player), j < 2 → duelState.players[j]? = some q' →
      ¬ (q'.alive = true ∧ (q'.row, q'.col) = rayCell 0 5 Dir.down 1) := by
    intro j q' hj hq' hc
    have h1 : j = 0 ∨ j = 1 := by omega
    rcases h1 with rfl | rfl
    · have : q'.row = 0 := by
        have h2 : duelState.players[0]? = some _ := rfl
        rw [h2] at hq'
        cases hq'
        rfl
      have h3 : q'.row = 1 := by
        have := congrArg Prod.fst hc.2
        simpa [rayCell, DIRECTION] using this
      omega
    · have : q'.row = 5 := by
        have h2 : duelState.players[1]? = some _ := rfl
        rw [h2] at hq'
        cases hq'
        rfl
      have h3 : q'.row = 1 := by
        have := congrArg Prod.fst hc.2
        simpa [rayCell, DIRECTION] using this
      omega
  obtain ⟨s', h1, _, h3⟩ :=
    shield_law duelState 0 _ Dir.down 1 2 _ (by decide) rfl (by decide) (by decide)
      (by decide) (by decide) rfl (by decide) (by decide) hfirst (by decide)
  refine ⟨s', h1, ?_⟩
  rw [h3 (by decide)]
  rfl

/-- C3 (self-shield guard), the code evaluated where it departs from the claim.
`aimedState` is reached from a fresh match by four consumed commands; it is
playing, its active combatant is "up" (roster index 0) with shield up and aim
down.  The action shoot with direction up (its own shield) is reported not
consumed and leaves the turn index, round, phase and board as they are, but the
returned state is not the state before: the aim of "up" now faces up. -/
theorem self_shield_guard_turns_aim :
    runCommands (startMatch idleState)
        [(Action.move, Dir.down), (Action.shield, Dir.left), (Action.shield, Dir.down),
          (Action.shield, Dir.right)] = Outcome.ok aimedState
      ∧ aimedState.phase = Phase.playing ∧ getActivePlayer aimedState = some 0
      ∧ Option.map Player.shield aimedState.players[0]? = some Dir.up
      ∧ Option.map Player.aim aimedState.players[0]? = some Dir.down
      ∧ ∃ s', runAction aimedState 0 Action.shoot Dir.up = Outcome.ok (false, s')
          ∧ executeActiveCommand aimedState Action.shoot Dir.up = Outcome.ok s'
          ∧ s'.currentTurnIndex = aimedState.currentTurnIndex
          ∧ s'.round = aimedState.round ∧ s'.phase = aimedState.phase
          ∧ s'.map = aimedState.map
          ∧ Option.map Player.aim s'.players[0]? = some Dir.up
          ∧ s' ≠ aimedState := by
  refine ⟨by decide, by decide, by decide, by decide, by decide,
    updatePlayer aimedState 0 fun p => { p with aim := Dir.up, spriteMode := SpriteMode.attack },
    by decide, by decide, by decide, by decide, by decide, by decide, by decide, by decide⟩

/-- C10 (end to end on the standard template).  In the state produced by
`startMatch` the active combatant is "up" on (0, 5) with hp 10 and cell (2, 5)
holds a block of strength 1.  Executing shoot with direction down empties that
cell, leaves every other in-bounds cell and the hp of all four combatants as
they were, and consumes the turn: the active index goes from 0 to 1 and the
round stays 1. -/
theorem end_to_end_standard_template (s0 : State) :
    getActivePlayer (startMatch s0) = some 0
      ∧ Option.map Player.id (startMatch s0).players[0]? = some Dir.up
      ∧ Option.map Player.row (startMatch s0).players[0]? = some 0
      ∧ Option.map Player.col (startMatch s0).players[0]? = some 5
      ∧ Option.map Player.hp (startMatch s0).players[0]? = some 10
      ∧ tileAt (startMatch s0).map 2 5 = some (Tile.block 1)
      ∧ (startMatch s0).currentTurnIndex = 0 ∧ (startMatch s0).round = 1
      ∧ ∃ s', executeActiveCommand (startMatch s0) Action.shoot Dir.down = Outcome.ok s'
          ∧ tileAt s'.map 2 5 = some Tile.empty
          ∧ (∀ r c, inBounds r c = true → (r, c) ≠ (2, 5) →
              tileAt s'.map r c = tileAt (startMatch s0).map r c)
          ∧ s'.players.map Player.hp = (startMatch s0).players.map Player.hp
          ∧ s'.players.map Player.hp = [10, 10, 10, 10]
          ∧ s'.currentTurnIndex = 1 ∧ s'.round = 1 ∧ s'.phase = Phase.playing := by
  have hs : startMatch s0 = startMatch idleState := rfl
  rw [hs]
  refine ⟨by decide, by decide, by decide, by decide, by decide, by decide, by decide, by decide,
    ?_⟩
  have hex : ∃ s', executeActiveCommand (startMatch idleState) Action.shoot Dir.down
      = Outcome.ok s' ∧ s'.map = setTile (startMatch idleState).map 2 5 Tile.empty
      ∧ s'.players.map Player.hp = [10, 10, 10, 10]
      ∧ s'.currentTurnIndex = 1 ∧ s'.round = 1 ∧ s'.phase = Phase.playing := by
    refine ⟨spendTurn (applyLaserToBlock
      (updatePlayer (startMatch idleState) 0 fun p =>
        { p with aim := Dir.down, spriteMode := SpriteMode.attack }) 1 2 5), ?_⟩
    decide
  obtain ⟨s', h1, h2, h3, h4, h5, h6⟩ := hex
  refine ⟨s', h1, ?_, ?_, ?_, h3, h4, h5, h6⟩
  · rw [h2]; decide
  · intro r c hrc hne
    rw [h2]
    rw [inBounds_iff] at hrc
    apply tileAt_setTile_ne _ _ (by decide) (by decide) hrc.1 hrc.2.2.1
    rintro ⟨rfl, rfl⟩
    exact hne rfl
  · rw [h3]; decide

/-! ## Lemmas on turn sequencing -/

theorem findIdx_set {q : Player → Bool} {a : Player} :
    ∀ {l : List Player} {i : Nat} {p : Player}, l[i]? = some p → q a = q p →
      findIdx q (l.set i a) = findIdx q l := by
  intro l
  induction l with
  | nil => intro i p h; simp at h
  | cons x l ih =>
    intro i p h hq
    cases i with
    | zero =>
      simp at h
      subst h
      simp [findIdx, hq]
    | succ i =>
      simp at h
      simp only [List.set_cons_succ, findIdx]
      rw [ih h hq]

theorem getPlayerById_updatePlayer (s : State) (i : Nat) (f : Player → Player)
    (hid : ∀ p, (f p).id = p.id) (x : Option Dir) :
    getPlayerById (updatePlayer s i f) x = getPlayerById s x := by
  unfold getPlayerById updatePlayer
  cases hp : s.players[i]? with
  | none => rfl
  | some p =>
    simp only
    exact findIdx_set hp (by rw [hid])

theorem aliveRef_updatePlayer (s : State) (i : Nat) (f : Player → Player)
    (hal : ∀ p, (f p).alive = p.alive) (o : Option Nat) :
    aliveRef (updatePlayer s i f) o = aliveRef s o := by
  cases o with
  | none => rfl
  | some j =>
    simp only [aliveRef, updatePlayer_get]
    by_cases h : j = i
    · subst h
      cases hp : s.players[j]? with
      | none => simp
      | some p => simp [hal]
    · simp [h]

theorem slotAlive_updatePlayer (s : State) (i : Nat) (f : Player → Player)
    (hid : ∀ p, (f p).id = p.id) (hal : ∀ p, (f p).alive = p.alive) (j : Nat) :
    slotAlive (updatePlayer s i f) j = slotAlive s j := by
  unfold slotAlive
  rw [getPlayerById_updatePlayer s i f hid, aliveRef_updatePlayer s i f hal]

/-- The loop of `spendTurn` stops on the first living slot after `next`, if one
of the `n` slots it tries is alive. -/
theorem spendTurnLoop_spec (s : State) (activeBefore : Nat) :
    ∀ (n next : Nat),
      (∃ k, 1 ≤ k ∧ k ≤ n ∧ slotAlive s ((next + k) % 4) = true
          ∧ (∀ j, 1 ≤ j → j < k → slotAlive s ((next + j) % 4) = false)
          ∧ spendTurnLoop s activeBefore n next =
              { s with
                currentTurnIndex := (next + k) % 4
                round := if (next + k) % 4 ≤ activeBefore then s.round + 1 else s.round })
        ∨ ((∀ j, 1 ≤ j → j ≤ n → slotAlive s ((next + j) % 4) = false)
          ∧ spendTurnLoop s activeBefore n next = s) := by
  intro n
  induction n with
  | zero =>
    intro next
    exact Or.inr ⟨by intro j h1 h2; omega, rfl⟩
  | succ n ih =>
    intro next
    have hlen : TURN_ORDER.length = 4 := rfl
    cases hal : slotAlive s ((next + 1) % 4) with
    | true =>
      refine Or.inl ⟨1, le_refl 1, by omega, hal, by intro j h1 h2; omega, ?_⟩
      have hal2 : aliveRef s (getPlayerById s TURN_ORDER[(next + 1) % 4]?) = true := hal
      simp only [spendTurnLoop, hlen, hal2, if_true]
    | false =>
      have hal2 : aliveRef s (getPlayerById s TURN_ORDER[(next + 1) % 4]?) = false := hal
      have hstep : spendTurnLoop s activeBefore (n + 1) next
          = spendTurnLoop s activeBefore n ((next + 1) % 4) := by
        simp only [spendTurnLoop, hlen, hal2, Bool.false_eq_true, if_false]
      have hmod : ∀ j, ((next + 1) % 4 + j) % 4 = (next + (j + 1)) % 4 := by
        intro j; omega
      rcases ih ((next + 1) % 4) with ⟨k, hk1, hk2, hk3, hk4, hk5⟩ | ⟨hnone, hs⟩
      · refine Or.inl ⟨k + 1, by omega, by omega, ?_, ?_, ?_⟩
        · rw [← hmod]; exact hk3
        · intro j hj1 hj2
          by_cases hj : j = 1
          · subst hj; exact hal
          · have := hk4 (j - 1) (by omega) (by omega)
            rw [hmod, show j - 1 + 1 = j by omega] at this
            exact this
        · rw [hstep, hk5, hmod]
      · refine Or.inr ⟨?_, by rw [hstep, hs]⟩
        intro j hj1 hj2
        by_cases hj : j = 1
        · subst hj; exact hal
        · have := hnone (j - 1) (by omega) (by omega)
          rw [hmod, show j - 1 + 1 = j by omega] at this
          exact this

theorem roster_cases {s : State} (hroster : s.players.map Player.id = TURN_ORDER) :
    ∃ p0 p1 p2 p3, s.players = [p0, p1, p2, p3] ∧ p0.id = Dir.up ∧ p1.id = Dir.left
      ∧ p2.id = Dir.down ∧ p3.id = Dir.right := by
  match h : s.players, hroster with
  | [p0, p1, p2, p3], hr =>
    simp only [List.map, TURN_ORDER, List.cons.injEq, and_true] at hr
    exact ⟨p0, p1, p2, p3, rfl, hr.1, hr.2.1, hr.2.2.1, hr.2.2.2⟩
  | [], hr => simp [TURN_ORDER] at hr
  | [_], hr => simp [TURN_ORDER] at hr
  | [_, _], hr => simp [TURN_ORDER] at hr
  | [_, _, _], hr => simp [TURN_ORDER] at hr
  | _ :: _ :: _ :: _ :: _ :: _, hr => simp [TURN_ORDER] at hr

theorem slotAlive_roster {s : State} (hroster : s.players.map Player.id = TURN_ORDER)
    {j : Nat} (hj : j < 4) :
    slotAlive s j = true ↔ Option.map Player.alive s.players[j]? = some true := by
  obtain ⟨p0, p1, p2, p3, hl, h0, h1, h2, h3⟩ := roster_cases hroster
  have h : j = 0 ∨ j = 1 ∨ j = 2 ∨ j = 3 := by omega
  rcases h with rfl | rfl | rfl | rfl <;>
    simp [slotAlive, getPlayerById, aliveRef, findIdx, TURN_ORDER, hl, h0, h1, h2, h3]

theorem spendTurn_eq (s : State) :
    ∃ s1, spendTurn s = spendTurnLoop s1 s.currentTurnIndex 4 s.currentTurnIndex
      ∧ (∀ j, slotAlive s1 j = slotAlive s j) ∧ s1.round = s.round ∧ s1.phase = s.phase
      ∧ s1.map = s.map
      ∧ (s1 = s ∨ ∃ i, s1 = updatePlayer s i fun p => { p with spriteMode := SpriteMode.idle }) := by
  have hlen : TURN_ORDER.length = 4 := rfl
  unfold spendTurn
  simp only [hlen]
  cases hc : getPlayerById s TURN_ORDER[s.currentTurnIndex]? with
  | none => exact ⟨s, rfl, fun _ => rfl, rfl, rfl, rfl, Or.inl rfl⟩
  | some i =>
    simp only
    split
    · exact ⟨_, rfl,
        fun j => slotAlive_updatePlayer s i (fun p => { p with spriteMode := SpriteMode.idle })
          (fun _ => rfl) (fun _ => rfl) j,
        by simp, by simp, by simp, Or.inr ⟨i, rfl⟩⟩
    · exact ⟨s, rfl, fun _ => rfl, rfl, rfl, rfl, Or.inl rfl⟩

/-- C6 (turn advance).  For a roster of the four combatants in turn order with
at least one of them alive, `spendTurn` sets `currentTurnIndex` to
`(old + k) % 4` for the least `k` in `1 .. 4` whose combatant is alive (the
scan `old + 1, old + 2, ...` modulo 4, up to and including `old` itself), and
`round` grows by exactly 1 when the new index is at most the old one and is
unchanged otherwise; phase and board are unchanged. -/
theorem turn_advance (s : State) (hroster : s.players.map Player.id = TURN_ORDER)
    (hlive : ∃ p ∈ s.players, p.alive = true) :
    ∃ k, 1 ≤ k ∧ k ≤ 4 ∧
      Option.map Player.alive s.players[(s.currentTurnIndex + k) % 4]? = some true ∧
      (∀ j, 1 ≤ j → j < k →
        Option.map Player.alive s.players[(s.currentTurnIndex + j) % 4]? ≠ some true) ∧
      (spendTurn s).currentTurnIndex = (s.currentTurnIndex + k) % 4 ∧
      (spendTurn s).round =
        (if (s.currentTurnIndex + k) % 4 ≤ s.currentTurnIndex then s.round + 1 else s.round) ∧
      (spendTurn s).phase = s.phase ∧ (spendTurn s).map = s.map := by
  obtain ⟨s1, hs1, hsl, hrnd, hph, hmap, _⟩ := spendTurn_eq s
  have hmod : ∀ j, (s.currentTurnIndex + j) % 4 < 4 := fun j => Nat.mod_lt _ (by omega)
  rcases spendTurnLoop_spec s1 s.currentTurnIndex 4 s.currentTurnIndex with
    ⟨k, hk1, hk2, hk3, hk4, hk5⟩ | ⟨hnone, _⟩
  · refine ⟨k, hk1, hk2, ?_, ?_, ?_, ?_, ?_, ?_⟩
    · rw [hsl] at hk3
      exact (slotAlive_roster hroster (hmod k)).mp hk3
    · intro j hj1 hj2 hcon
      have := hk4 j hj1 hj2
      rw [hsl, (slotAlive_roster hroster (hmod j)).mpr hcon] at this
      cases this
    · rw [hs1, hk5]
    · rw [hs1, hk5, hrnd]
    · rw [hs1, hk5, hph]
    · rw [hs1, hk5, hmap]
  · exfalso
    obtain ⟨p, hp, hpa⟩ := hlive
    obtain ⟨m, hm⟩ := List.getElem?_of_mem hp
    have hlen : s.players.length = 4 := by
      have := congrArg List.length hroster
      simpa [TURN_ORDER] using this
    have hm4 : m < 4 := by
      by_contra hc
      rw [List.getElem?_eq_none (by omega)] at hm
      cases hm
    have hsm : slotAlive s m = true := by
      rw [slotAlive_roster hroster hm4, hm]
      simp [hpa]
    have hj : ∃ j, 1 ≤ j ∧ j ≤ 4 ∧ (s.currentTurnIndex + j) % 4 = m := by
      by_cases h0 : (m + 4 - s.currentTurnIndex % 4) % 4 = 0
      · exact ⟨4, by omega, by omega, by omega⟩
      · exact ⟨(m + 4 - s.currentTurnIndex % 4) % 4, by omega, by omega, by omega⟩
    obtain ⟨j, hj1, hj2, hj3⟩ := hj
    have := hnone j hj1 hj2
    rw [hsl, hj3, hsm] at this
    cases this

/-- Witness of C6: in a fresh match the turn goes from slot 0 to slot 1. -/
theorem turn_advance_witness :
    ∃ k, 1 ≤ k ∧ k ≤ 4 ∧
      Option.map Player.alive
        (startMatch idleState).players[((startMatch idleState).currentTurnIndex + k) % 4]?
          = some true ∧
      (∀ j, 1 ≤ j → j < k →
        Option.map Player.alive
          (startMatch idleState).players[((startMatch idleState).currentTurnIndex + j) % 4]?
            ≠ some true) ∧
      (spendTurn (startMatch idleState)).currentTurnIndex
        = ((startMatch idleState).currentTurnIndex + k) % 4 ∧
      (spendTurn (startMatch idleState)).round =
        (if ((startMatch idleState).currentTurnIndex + k) % 4
            ≤ (startMatch idleState).currentTurnIndex
          then (startMatch idleState).round + 1 else (startMatch idleState).round) ∧
      (spendTurn (startMatch idleState)).phase = (startMatch idleState).phase ∧
      (spendTurn (startMatch idleState)).map = (startMatch idleState).map :=
  turn_advance (startMatch idleState) (by decide) (by decide)

theorem spendTurn_phase (s : State) : (spendTurn s).phase = s.phase := by
  obtain ⟨s1, hs1, _, _, hph, _, _⟩ := spendTurn_eq s
  rcases spendTurnLoop_spec s1 s.currentTurnIndex 4 s.currentTurnIndex with
    ⟨k, _, _, _, _, hk5⟩ | ⟨_, hs⟩
  · rw [hs1, hk5, hph]
  · rw [hs1, hs, hph]

theorem executeActiveCommand_not_playing {s : State} (h : s.phase ≠ Phase.playing)
    (action : Action) (direction : Dir) :
    executeActiveCommand s action direction = Outcome.ok s := by
  unfold executeActiveCommand
  simp [h]

theorem runCommands_not_playing {s : State} (h : s.phase ≠ Phase.playing) :
    ∀ cmds : List (Action × Dir), runCommands s cmds = Outcome.ok s := by
  intro cmds
  induction cmds with
  | nil => rfl
  | cons c cmds ih =>
    obtain ⟨action, direction⟩ := c
    simp only [runCommands, executeActiveCommand_not_playing h]
    exact ih

/-- C5 (win detection).  In a playing state whose active combatant (roster
index `i`) is alive, let `runAction` report consumed with the state `s1`.  Then
`executeActiveCommand` returns a state whose phase is finished if and only if
exactly one combatant is alive in `s1`; otherwise the phase stays playing.
When it is finished, the turn index and round are those before the step, board
and roster are those after the action, and every later sequence of commands
returns that same state. -/
theorem win_detection (s : State) (action : Action) (direction : Dir) (i : Nat) (s1 : State)
    (hphase : s.phase = Phase.playing) (hact : getActivePlayer s = some i)
    (halive : aliveRef s (some i) = true)
    (hrun : runAction s i action direction = Outcome.ok (true, s1)) :
    ∃ s2, executeActiveCommand s action direction = Outcome.ok s2 ∧
      (s2.phase = Phase.finished ↔ (alivePlayers s1).length = 1) ∧
      ((alivePlayers s1).length ≠ 1 → s2 = spendTurn s1 ∧ s2.phase = Phase.playing) ∧
      ((alivePlayers s1).length = 1 →
        s2.currentTurnIndex = s.currentTurnIndex ∧ s2.round = s.round ∧
        s2.map = s1.map ∧ s2.players = s1.players ∧
        ∀ cmds : List (Action × Dir), runCommands s2 cmds = Outcome.ok s2) := by
  obtain ⟨hph, hidx, hrnd⟩ := runAction_turn hrun
  unfold executeActiveCommand
  simp only [hphase, ne_eq, not_true_eq_false, if_false, hact, halive, Bool.not_true,
    Bool.false_eq_true, hrun]
  by_cases hw : (alivePlayers s1).length = 1
  · simp only [checkWinner, hw, if_true]
    refine ⟨_, rfl, by simp, by simp, ?_⟩
    intro _
    refine ⟨hidx, hrnd, rfl, rfl, ?_⟩
    exact runCommands_not_playing (by simp)
  · simp only [checkWinner, hw, if_false]
    have hp2 : (spendTurn s1).phase = Phase.playing := by
      rw [spendTurn_phase, hph, hphase]
    refine ⟨_, rfl, ?_, fun _ => ⟨rfl, hp2⟩, fun h => h.elim⟩
    rw [hp2]
    simp [hw]

/-- Witness of C5: "up" eliminates "down", the last other living combatant;
the match is finished and the turn stays with "up". -/
theorem win_detection_witness :
    ∃ s2, executeActiveCommand lastDuelState Action.shoot Dir.down = Outcome.ok s2 ∧
      s2.phase = Phase.finished ∧ s2.currentTurnIndex = 0 ∧ s2.round = 7 ∧
      ∀ cmds : List (Action × Dir), runCommands s2 cmds = Outcome.ok s2 := by
  obtain ⟨s2, h1, h2, _, h4⟩ :=
    win_detection lastDuelState Action.shoot Dir.down 0
      (updatePlayer
        (updatePlayer lastDuelState 0 fun p =>
          { p with aim := Dir.down, spriteMode := SpriteMode.attack })
        2 fun q => { q with hp := 0, alive := false })
      (by decide) (by decide) (by decide) (by decide)
  have hone := h4 (by decide)
  exact ⟨s2, h1, h2.mpr (by decide), hone.1, hone.2.1, hone.2.2.2.2⟩

/-! ## The placement invariant -/

theorem holdsBlock_congr {s s' : State} (h : s'.map = s.map) (row col : Int) :
    holdsBlock s' row col = holdsBlock s row col := by
  unfold holdsBlock
  rw [h]

theorem posStable_refl (s : State) : PosStable s s :=
  ⟨rfl, fun _ q' h => ⟨q', h, rfl, rfl, id⟩⟩

theorem posStable_trans {s s' s'' : State} (h1 : PosStable s s') (h2 : PosStable s' s'') :
    PosStable s s'' := by
  refine ⟨by rw [h2.1, h1.1], ?_⟩
  intro j q'' hq''
  obtain ⟨q', hq', hr', hc', ha'⟩ := h2.2 j q'' hq''
  obtain ⟨q, hq, hr, hc, ha⟩ := h1.2 j q' hq'
  exact ⟨q, hq, by rw [hr', hr], by rw [hc', hc], fun h => ha (ha' h)⟩

theorem posStable_updatePlayer (s : State) (i : Nat) (f : Player → Player)
    (hf : ∀ p, (f p).row = p.row ∧ (f p).col = p.col ∧ ((f p).alive = true → p.alive = true)) :
    PosStable s (updatePlayer s i f) := by
  refine ⟨by simp, ?_⟩
  intro j q' hq'
  rw [updatePlayer_get] at hq'
  by_cases h : j = i
  · simp only [h, if_true, Option.map_eq_some'] at hq'
    obtain ⟨q, hq, rfl⟩ := hq'
    exact ⟨q, by rw [h]; exact hq, (hf q).1, (hf q).2.1, (hf q).2.2⟩
  · simp only [h, if_false] at hq'
    exact ⟨q', hq', rfl, rfl, id⟩

theorem Inv_of_posStable {s s' : State} (hinv : Inv s) (h : PosStable s s') : Inv s' := by
  obtain ⟨hb, hin, hblk, hocc⟩ := hinv
  obtain ⟨hmap, hpl⟩ := h
  refine ⟨by rw [hmap]; exact hb, ?_, ?_, ?_⟩
  · intro i p hp
    obtain ⟨q, hq, hr, hc, _⟩ := hpl i p hp
    rw [hr, hc]
    exact hin i q hq
  · intro i p hp ha
    obtain ⟨q, hq, hr, hc, hal⟩ := hpl i p hp
    rw [holdsBlock_congr hmap, hr, hc]
    exact hblk i q hq (hal ha)
  · intro i j p q hp hq ha hqa hr hc
    obtain ⟨p0, hp0, hr0, hc0, hal0⟩ := hpl i p hp
    obtain ⟨q0, hq0, hr1, hc1, hal1⟩ := hpl j q hq
    exact hocc i j p0 q0 hp0 hq0 (hal0 ha) (hal1 hqa) (by rw [← hr0, ← hr1, hr])
      (by rw [← hc0, ← hc1, hc])

theorem Inv_move {s : State} (hinv : Inv s) (i : Nat) {row col : Int}
    (hin : inBounds row col = true) (hblock : holdsBlock s row col = false)
    (hfree : playerAt s row col = none) :
    Inv (updatePlayer s i fun q => { q with row := row, col := col }) := by
  obtain ⟨hb, hinb, hblk, hocc⟩ := hinv
  have hno := playerAt_eq_none.mp hfree
  refine ⟨by simpa using hb, ?_, ?_, ?_⟩
  · intro j p hp
    rw [updatePlayer_get] at hp
    by_cases h : j = i
    · simp only [h, if_true, Option.map_eq_some'] at hp
      obtain ⟨q, _, rfl⟩ := hp
      exact hin
    · simp only [h, if_false] at hp
      exact hinb j p hp
  · intro j p hp ha
    rw [holdsBlock_congr (updatePlayer_map s i _)]
    rw [updatePlayer_get] at hp
    by_cases h : j = i
    · simp only [h, if_true, Option.map_eq_some'] at hp
      obtain ⟨q, _, rfl⟩ := hp
      exact hblock
    · simp only [h, if_false] at hp
      exact hblk j p hp ha
  · intro j k p q hp hq ha hqa hr hc
    rw [updatePlayer_get] at hp hq
    by_cases hj : j = i
    · by_cases hk : k = i
      · rw [hj, hk]
      · exfalso
        simp only [hj, if_true, Option.map_eq_some'] at hp
        obtain ⟨p0, _, rfl⟩ := hp
        simp only [hk, if_false] at hq
        exact hno ⟨q, List.getElem?_mem hq, hqa, hr.symm, hc.symm⟩
    · by_cases hk : k = i
      · exfalso
        simp only [hk, if_true, Option.map_eq_some'] at hq
        obtain ⟨q0, _, rfl⟩ := hq
        simp only [hj, if_false] at hp
        exact hno ⟨p, List.getElem?_mem hp, ha, hr, hc⟩
      · simp only [hj, if_false] at hp
        simp only [hk, if_false] at hq
        exact hocc j k p q hp hq ha hqa hr hc

theorem Inv_applyLaserToBlock {s : State} (hinv : Inv s) {row col k : Int}
    (hin : inBounds row col = true) (ht : tileAt s.map row col = some (Tile.block k)) :
    Inv (applyLaserToBlock s k row col) := by
  obtain ⟨hb, hinb, hblk, hocc⟩ := hinv
  refine ⟨applyLaserToBlock_boardOk hb _ _ _, ?_, ?_, ?_⟩
  · intro i p hp
    rw [applyLaserToBlock_players] at hp
    exact hinb i p hp
  · intro i p hp ha
    rw [applyLaserToBlock_players] at hp
    have h1 := hblk i p hp ha
    by_cases hcell : (p.row, p.col) = (row, col)
    · exfalso
      cases hcell
      simp [holdsBlock, ht] at h1
    · unfold holdsBlock at h1 ⊢
      rw [applyLaserToBlock_tile_ne s k hin (hinb i p hp) hcell]
      exact h1
  · intro i j p q hp hq
    rw [applyLaserToBlock_players] at hp hq
    exact hocc i j p q hp hq

theorem posStable_hitPlayer {s s' : State} {t : Nat} {direction : Dir} {b : Bool}
    (h : hitPlayer s t direction = Outcome.ok (b, s')) : PosStable s s' := by
  cases hq : s.players[t]? with
  | none => simp [hitPlayer, hq] at h
  | some q =>
    obtain ⟨s2, hs2, hmap, _, _, _, _, hoth, hself⟩ := hitPlayer_spec direction hq
    rw [hs2] at h
    cases h
    refine ⟨hmap, ?_⟩
    intro j q' hq'
    by_cases hj : j = t
    · subst hj
      rw [hself] at hq'
      cases hq'
      refine ⟨q, hq, ?_, ?_, ?_⟩
      · split
        · rfl
        · split <;> rfl
      · split
        · rfl
        · split <;> rfl
      · split
        · exact id
        · split
          · intro h; cases h
          · exact id
    · rw [hoth j hj] at hq'
      exact ⟨q', hq', rfl, rfl, id⟩

theorem Inv_shoot {s s' : State} {i : Nat} {direction : Dir} {b : Bool} (hinv : Inv s)
    (h : shoot s i direction = Outcome.ok (b, s')) : Inv s' := by
  cases hp : s.players[i]? with
  | none => simp [shoot, hp] at h
  | some p =>
    by_cases hd : direction = p.shield
    · simp only [shoot, hp, hd, if_true] at h
      cases h
      exact hinv
    · obtain ⟨n, _, hres⟩ := shoot_cases hinv.1 hp hd
      rcases hres with ⟨_, hsh⟩ | ⟨hin, bk, ht, hsh⟩ | ⟨_, _, t, _, hsh⟩
      · rw [hsh] at h
        cases h
        exact hinv
      · rw [hsh] at h
        cases h
        exact Inv_applyLaserToBlock hinv hin ht
      · rw [hsh] at h
        exact Inv_of_posStable hinv (posStable_hitPlayer h)

theorem holdsBlock_of_blockTile_none {s : State} {row col : Int} (hin : inBounds row col = true)
    (h : blockTile s row col = Outcome.ok none) : holdsBlock s row col = false := by
  unfold blockTile at h
  simp only [hin, Bool.not_true, Bool.false_eq_true, if_false] at h
  unfold holdsBlock
  cases ht : tileAt s.map row col with
  | none => rfl
  | some t =>
    cases t with
    | empty => rfl
    | block k => simp [ht] at h

theorem Inv_tryMove {s s' : State} {i : Nat} {direction : Dir} {b : Bool} (hinv : Inv s)
    (h : tryMove s i direction = Outcome.ok (b, s')) : Inv s' := by
  unfold tryMove at h
  split at h
  · cases h
  · rename_i p hp
    dsimp only at h
    cases hin : inBounds (p.row + (DIRECTION direction).dr) (p.col + (DIRECTION direction).dc) with
    | false =>
      simp only [hin, Bool.not_false, if_true] at h
      cases h
      exact hinv
    | true =>
      simp only [hin, Bool.not_true, Bool.false_eq_true, if_false] at h
      split at h
      · cases h
      · cases h
      · cases h
        exact hinv
      · rename_i hbt
        split at h
        · cases h
          exact hinv
        · rename_i hpa
          cases h
          exact Inv_move hinv i hin (holdsBlock_of_blockTile_none hin hbt) hpa

theorem Inv_runAction {s s' : State} {i : Nat} {action : Action} {direction : Dir} {b : Bool}
    (hinv : Inv s) (h : runAction s i action direction = Outcome.ok (b, s')) : Inv s' := by
  cases action with
  | move =>
    simp only [runAction] at h
    split at h
    · rename_i s1 hm
      cases h
      exact Inv_of_posStable (Inv_tryMove hinv hm)
        (posStable_updatePlayer _ _ _ (fun _ => ⟨rfl, rfl, id⟩))
    · exact Inv_tryMove hinv h
  | shield =>
    simp only [runAction] at h
    split at h
    · cases h
    · cases h
      exact Inv_of_posStable hinv (posStable_updatePlayer _ _ _ (fun _ => ⟨rfl, rfl, id⟩))
  | shoot =>
    simp only [runAction] at h
    split at h
    · cases h
    · have hinv0 : Inv (updatePlayer s i fun p =>
          { p with aim := direction, spriteMode := SpriteMode.attack }) :=
        Inv_of_posStable hinv (posStable_updatePlayer _ _ _ (fun _ => ⟨rfl, rfl, id⟩))
      exact Inv_shoot hinv0 h
  | other =>
    simp only [runAction] at h
    cases h
    exact hinv

theorem posStable_spendTurn (s : State) : PosStable s (spendTurn s) := by
  obtain ⟨s1, hs1, _, _, _, _, hshape⟩ := spendTurn_eq s
  have h1 : PosStable s s1 := by
    rcases hshape with rfl | ⟨i, rfl⟩
    · exact posStable_refl _
    · exact posStable_updatePlayer _ _ _ (fun _ => ⟨rfl, rfl, id⟩)
  have h2 : PosStable s1 (spendTurn s) := by
    rcases spendTurnLoop_spec s1 s.currentTurnIndex 4 s.currentTurnIndex with
      ⟨k, _, _, _, _, hk5⟩ | ⟨_, hs⟩
    · rw [hs1, hk5]
      exact ⟨rfl, fun _ q' h => ⟨q', h, rfl, rfl, id⟩⟩
    · rw [hs1, hs]
      exact posStable_refl _
  exact posStable_trans h1 h2

theorem Inv_executeActiveCommand {s s' : State} {action : Action} {direction : Dir}
    (hinv : Inv s) (h : executeActiveCommand s action direction = Outcome.ok s') : Inv s' := by
  unfold executeActiveCommand at h
  split at h
  · cases h; exact hinv
  · split at h
    · cases h; exact hinv
    · split at h
      · cases h; exact hinv
      · split at h
        · cases h
        · cases h
        · rename_i s1 hrun
          cases h
          exact Inv_runAction hinv hrun
        · rename_i s1 hrun
          have hinv1 := Inv_runAction hinv hrun
          unfold checkWinner at h
          split at h
          · rename_i s2 hcw
            split at hcw
            · cases hcw
              cases h
              exact Inv_of_posStable hinv1 ⟨rfl, fun _ q' hq => ⟨q', hq, rfl, rfl, id⟩⟩
            · cases hcw
          · rename_i s2 hcw
            split at hcw
            · cases hcw
            · cases hcw
              cases h
              exact Inv_of_posStable hinv1 (posStable_spendTurn _)

theorem Inv_startMatch (s0 : State) : Inv (startMatch s0) := by
  have hs : startMatch s0 = startMatch idleState := rfl
  rw [hs]
  refine ⟨by decide, ?_, ?_, ?_⟩
  · have h : ∀ p ∈ (startMatch idleState).players, inBounds p.row p.col = true := by decide
    intro i p hp
    exact h p (List.getElem?_mem hp)
  · have h : ∀ p ∈ (startMatch idleState).players, p.alive = true →
        holdsBlock (startMatch idleState) p.row p.col = false := by decide
    intro i p hp
    exact h p (List.getElem?_mem hp)
  · have h : ∀ i, i < 4 → ∀ j, j < 4 →
        ∀ p ∈ (startMatch idleState).players[i]?, ∀ q ∈ (startMatch idleState).players[j]?,
          p.row = q.row → p.col = q.col → i = j := by decide
    intro i j p q hp hq _ _ hr hc
    have hi : i < 4 := by
      by_contra hcon
      rw [List.getElem?_eq_none (by simp [startMatch, createPlayers]; omega)] at hp
      cases hp
    have hj : j < 4 := by
      by_contra hcon
      rw [List.getElem?_eq_none (by simp [startMatch, createPlayers]; omega)] at hq
      cases hq
    exact h i hi j hj p hp q hq hr hc

theorem Inv_of_reachable {s : State} (h : Reachable s) : Inv s := by
  induction h with
  | start s0 => exact Inv_startMatch s0
  | step action direction _ hstep ih => exact Inv_executeActiveCommand ih hstep

theorem reachable_runCommands {s : State} (h : Reachable s) :
    ∀ (cmds : List (Action × Dir)) (s' : State), runCommands s cmds = Outcome.ok s' →
      Reachable s' := by
  intro cmds
  induction cmds generalizing s with
  | nil =>
    intro s' hs
    cases hs
    exact h
  | cons c cmds ih =>
    intro s' hs
    obtain ⟨action, direction⟩ := c
    simp only [runCommands] at hs
    split at hs
    · rename_i s1 h1
      exact ih (Reachable.step action direction h h1) s' hs
    · cases hs
    · cases hs

/-- C4 (occupancy invariant).  In every state reachable from `startMatch` by
`executeActiveCommand` steps, two living combatants at different roster
indices never stand on the same cell, and every living combatant stands in
bounds on a cell that does not hold a block. -/
theorem occupancy_invariant (s : State) (h : Reachable s) :
    (∀ (i j : Nat) (p q : Player), s.players[i]? = some p → s.players[j]? = some q → i ≠ j →
      p.alive = true → q.alive = true → ¬ (p.row = q.row ∧ p.col = q.col)) ∧
    (∀ p ∈ s.players, p.alive = true →
      inBounds p.row p.col = true ∧ ∀ k, tileAt s.map p.row p.col ≠ some (Tile.block k)) := by
  obtain ⟨_, hin, hblk, hocc⟩ := Inv_of_reachable h
  constructor
  · intro i j p q hp hq hij ha hqa hcon
    exact hij (hocc i j p q hp hq ha hqa hcon.1 hcon.2)
  · intro p hp ha
    obtain ⟨i, hi⟩ := List.getElem?_of_mem hp
    refine ⟨hin i p hi, ?_⟩
    intro k hk
    have := hblk i p hi ha
    simp [holdsBlock, hk] at this

/-- Witness of C4: the state after one round of play is reachable, so the
occupancy invariant holds in it. -/
theorem occupancy_invariant_witness :
    (∀ (i j : Nat) (p q : Player), aimedState.players[i]? = some p →
      aimedState.players[j]? = some q → i ≠ j →
      p.alive = true → q.alive = true → ¬ (p.row = q.row ∧ p.col = q.col)) ∧
    (∀ p ∈ aimedState.players, p.alive = true →
      inBounds p.row p.col = true ∧
        ∀ k, tileAt aimedState.map p.row p.col ≠ some (Tile.block k)) :=
  occupancy_invariant aimedState
    (reachable_runCommands (Reachable.start idleState)
      [(Action.move, Dir.down), (Action.shield, Dir.left), (Action.shield, Dir.down),
        (Action.shield, Dir.right)] aimedState (by decide))

/-! ## Reset and the shield action -/

/-- C11 (reset).  For every state `s`, whatever its phase, board, roster and
turn data, `startMatch s` is one and the same fresh state: phase playing,
`currentTurnIndex` 0, round 1, the four combatants on (0,5), (5,0), (10,5) and
(5,10) with hp 10, alive, shield and aim equal to their own side, and a board
that is the image of `TEMPLATE` under 0 -> empty, v -> block of strength v.
Nothing of `s` survives: the result is the same for any two earlier states, for
instance for a worn finished match and for the idle state. -/
theorem reset_fresh (s : State) :
    (startMatch s).phase = Phase.playing
      ∧ (startMatch s).currentTurnIndex = 0 ∧ (startMatch s).round = 1
      ∧ (startMatch s).players =
          [ { id := Dir.up, row := 0, col := 5, hp := 10, shield := Dir.up, aim := Dir.up,
              spriteMode := SpriteMode.idle, alive := true },
            { id := Dir.left, row := 5, col := 0, hp := 10, shield := Dir.left,
              aim := Dir.left, spriteMode := SpriteMode.idle, alive := true },
            { id := Dir.down, row := 10, col := 5, hp := 10, shield := Dir.down,
              aim := Dir.down, spriteMode := SpriteMode.idle, alive := true },
            { id := Dir.right, row := 5, col := 10, hp := 10, shield := Dir.right,
              aim := Dir.right, spriteMode := SpriteMode.idle, alive := true } ]
      ∧ (startMatch s).map = TEMPLATE.map (fun row => row.map tileOfTemplate)
      ∧ (∀ s' : State, startMatch s' = startMatch s)
      ∧ startMatch wornState = startMatch idleState
      ∧ wornState.map ≠ (startMatch wornState).map
      ∧ wornState.players ≠ (startMatch wornState).players := by
  refine ⟨rfl, rfl, rfl, ?_, rfl, fun _ => rfl, rfl, by decide, by decide⟩
  have hs : startMatch s = startMatch idleState := rfl
  rw [hs]
  decide

/-- C12 (shield action).  For the combatant `p` at roster index `i` and any
direction (also the one its shield already faces), `runAction` with the action
shield is consumed and returns a state in which `p` has `shield` the direction
(and sprite mode roll) and all its other fields as before, every other
combatant, the board and the turn data are unchanged. -/
theorem shield_action (s : State) (i : Nat) (p : Player) (direction : Dir)
    (hp : s.players[i]? = some p) :
    ∃ s', runAction s i Action.shield direction = Outcome.ok (true, s') ∧
      s'.players[i]? = some { p with shield := direction, spriteMode := SpriteMode.roll } ∧
      (∀ j, j ≠ i → s'.players[j]? = s.players[j]?) ∧
      s'.players.length = s.players.length ∧
      s'.map = s.map ∧ s'.phase = s.phase ∧
      s'.currentTurnIndex = s.currentTurnIndex ∧ s'.round = s.round := by
  simp only [runAction, hp]
  exact ⟨_, rfl, updatePlayer_get_self _ hp, fun j hj => updatePlayer_get_ne _ _ hj,
    by simp, by simp, by simp, by simp, by simp⟩

/-- Witness of C12: at the start of a match "up" turns its shield to where it
already is; the action is consumed and only the sprite mode of "up" changes. -/
theorem shield_action_witness :
    ∃ s', runAction (startMatch idleState) 0 Action.shield Dir.up = Outcome.ok (true, s') ∧
      Option.map Player.shield s'.players[0]? = some Dir.up ∧
      s'.map = (startMatch idleState).map := by
  obtain ⟨s', h1, h2, _, _, h5, _⟩ :=
    shield_action (startMatch idleState) 0 _ Dir.up rfl
  exact ⟨s', h1, by rw [h2]; rfl, h5⟩

/-! ## A step of play as a chain of elementary changes -/

theorem rayCell_ne (row col : Int) (direction : Dir) (n : Nat) :
    rayCell row col direction (n + 1) ≠ (row, col) := by
  intro h
  have h1 := congrArg Prod.fst h
  have h2 := congrArg Prod.snd h
  cases direction <;> simp only [rayCell, DIRECTION] at h1 h2 <;> push_cast at h1 h2 <;> omega

theorem steps_preserve {P : State → Prop} {i : Nat}
    (hstep : ∀ s s', P s → Atomic i s s' → P s') {s s' : State}
    (h : Relation.ReflTransGen (Atomic i) s s') (hs : P s) : P s' := by
  induction h with
  | refl => exact hs
  | tail _ hbc ih => exact hstep _ _ ih hbc

theorem tryMove_atomic {s s' : State} {i : Nat} {direction : Dir} {b : Bool} (actor : Nat)
    (h : tryMove s i direction = Outcome.ok (b, s')) :
    Relation.ReflTransGen (Atomic actor) s s' := by
  unfold tryMove at h
  split at h
  · cases h
  · rename_i p hp
    dsimp only at h
    cases hin : inBounds (p.row + (DIRECTION direction).dr) (p.col + (DIRECTION direction).dc) with
    | false =>
      simp only [hin, Bool.not_false, if_true] at h
      cases h
      exact Relation.ReflTransGen.refl
    | true =>
      simp only [hin, Bool.not_true, Bool.false_eq_true, if_false] at h
      split at h
      · cases h
      · cases h
      · cases h
        exact Relation.ReflTransGen.refl
      · rename_i hbt
        split at h
        · cases h
          exact Relation.ReflTransGen.refl
        · rename_i hpa
          cases h
          exact Relation.ReflTransGen.single
            (Atomic.move i _ _ hin (holdsBlock_of_blockTile_none hin hbt) hpa)

theorem shoot_atomic {s s' : State} {i : Nat} {direction : Dir} {b : Bool}
    (hb : boardOk s.map) (h : shoot s i direction = Outcome.ok (b, s')) :
    Relation.ReflTransGen (Atomic i) s s' := by
  cases hp : s.players[i]? with
  | none => simp [shoot, hp] at h
  | some p =>
    by_cases hd : direction = p.shield
    · simp only [shoot, hp, hd, if_true] at h
      cases h
      exact Relation.ReflTransGen.refl
    · obtain ⟨n, _, hres⟩ := shoot_cases hb hp hd
      rcases hres with ⟨_, hsh⟩ | ⟨hin, bk, ht, hsh⟩ | ⟨_, _, t, hpa, hsh⟩
      · rw [hsh] at h
        cases h
        exact Relation.ReflTransGen.refl
      · rw [hsh] at h
        cases h
        exact Relation.ReflTransGen.single (Atomic.laser _ _ _ hin ht)
      · rw [hsh] at h
        obtain ⟨⟨q, hq, hqa, hqr, hqc⟩, _⟩ := playerAt_eq_some hpa
        have hti : t ≠ i := by
          rintro rfl
          rw [hp] at hq
          cases hq
          exact rayCell_ne p.row p.col direction n (Prod.ext hqr.symm hqc.symm)
        have hbt := (hitPlayer_turn h).1
        subst hbt
        exact Relation.ReflTransGen.single (Atomic.hit t q direction hti hq hqa h)

theorem runAction_atomic {s s' : State} {i : Nat} {action : Action} {direction : Dir} {b : Bool}
    (hb : boardOk s.map) (h : runAction s i action direction = Outcome.ok (b, s')) :
    Relation.ReflTransGen (Atomic i) s s' := by
  cases action with
  | move =>
    simp only [runAction] at h
    split at h
    · rename_i s1 hm
      cases h
      exact Relation.ReflTransGen.tail (tryMove_atomic i hm)
        (Atomic.cosmetic i _ (fun _ => ⟨rfl, rfl, rfl, rfl, rfl⟩))
    · exact tryMove_atomic i h
  | shield =>
    simp only [runAction] at h
    split at h
    · cases h
    · cases h
      exact Relation.ReflTransGen.single
        (Atomic.cosmetic i _ (fun _ => ⟨rfl, rfl, rfl, rfl, rfl⟩))
  | shoot =>
    simp only [runAction] at h
    split at h
    · cases h
    · have h0 : Atomic i s (updatePlayer s i fun p =>
          { p with aim := direction, spriteMode := SpriteMode.attack }) :=
        Atomic.cosmetic i _ (fun _ => ⟨rfl, rfl, rfl, rfl, rfl⟩)
      exact Relation.ReflTransGen.head h0 (shoot_atomic (by simpa using hb) h)
  | other =>
    simp only [runAction] at h
    cases h
    exact Relation.ReflTransGen.refl

theorem spendTurn_atomic (actor : Nat) (s : State) :
    Relation.ReflTransGen (Atomic actor) s (spendTurn s) := by
  obtain ⟨s1, hs1, _, _, _, _, hshape⟩ := spendTurn_eq s
  have h1 : Relation.ReflTransGen (Atomic actor) s s1 := by
    rcases hshape with rfl | ⟨i, rfl⟩
    · exact Relation.ReflTransGen.refl
    · exact Relation.ReflTransGen.single
        (Atomic.cosmetic i _ (fun _ => ⟨rfl, rfl, rfl, rfl, rfl⟩))
  refine Relation.ReflTransGen.tail h1 ?_
  rcases spendTurnLoop_spec s1 s.currentTurnIndex 4 s.currentTurnIndex with
    ⟨k, _, _, _, _, hk5⟩ | ⟨_, hs⟩
  · rw [hs1, hk5]
    exact Atomic.turn rfl rfl
  · rw [hs1, hs]
    exact Atomic.turn rfl rfl

/-- What `executeActiveCommand` does to a playing state whose active combatant
is alive, in terms of `runAction`, `checkWinner` and `spendTurn`. -/
theorem executeActiveCommand_cases {s s' : State} {action : Action} {direction : Dir}
    (h : executeActiveCommand s action direction = Outcome.ok s') :
    s' = s ∨ ∃ i, s.phase = Phase.playing ∧ getActivePlayer s = some i
      ∧ aliveRef s (some i) = true
      ∧ (runAction s i action direction = Outcome.ok (false, s')
        ∨ ∃ s1, runAction s i action direction = Outcome.ok (true, s1)
          ∧ (((alivePlayers s1).length = 1 ∧ s' = { s1 with phase := Phase.finished })
            ∨ ((alivePlayers s1).length ≠ 1 ∧ s' = spendTurn s1))) := by
  unfold executeActiveCommand at h
  split at h
  · cases h; exact Or.inl rfl
  · rename_i hph
    have hph2 : s.phase = Phase.playing := by
      by_contra hc; exact hph hc
    split at h
    · cases h; exact Or.inl rfl
    · rename_i i hact
      split at h
      · cases h; exact Or.inl rfl
      · rename_i hal
        have hal2 : aliveRef s (some i) = true := by
          cases hx : aliveRef s (some i) with
          | true => rfl
          | false => simp [hx] at hal
        refine Or.inr ⟨i, hph2, hact, hal2, ?_⟩
        split at h
        · cases h
        · cases h
        · rename_i s1 hrun
          cases h
          exact Or.inl hrun
        · rename_i s1 hrun
          refine Or.inr ⟨s1, hrun, ?_⟩
          unfold checkWinner at h
          by_cases hw : (alivePlayers s1).length = 1
          · simp only [hw, if_true] at h
            cases h
            exact Or.inl ⟨hw, rfl⟩
          · simp only [hw, if_false] at h
            cases h
            exact Or.inr ⟨hw, rfl⟩

theorem executeActiveCommand_atomic {s s' : State} {action : Action} {direction : Dir}
    (hb : boardOk s.map) (h : executeActiveCommand s action direction = Outcome.ok s') :
    ∃ i, Relation.ReflTransGen (Atomic i) s s' := by
  rcases executeActiveCommand_cases h with rfl | ⟨i, _, _, _, hrun | ⟨s1, hrun, hw | hw⟩⟩
  · exact ⟨0, Relation.ReflTransGen.refl⟩
  · exact ⟨i, runAction_atomic hb hrun⟩
  · rw [hw.2]
    exact ⟨i, Relation.ReflTransGen.tail (runAction_atomic hb hrun) (Atomic.turn rfl rfl)⟩
  · rw [hw.2]
    exact ⟨i, Relation.ReflTransGen.trans (runAction_atomic hb hrun) (spendTurn_atomic i s1)⟩

/-! ## Invariants of the roster -/

theorem reachable_graveState : Reachable graveState :=
  reachable_runCommands (Reachable.start idleState) graveCommands graveState (by decide)

theorem map_id_of_pointwise {l l' : List Player}
    (h : ∀ j : Nat, Option.map Player.id (l'[j]? : Option Player)
      = Option.map Player.id (l[j]? : Option Player)) :
    l'.map Player.id = l.map Player.id := by
  apply List.ext_getElem?
  intro j
  rw [List.getElem?_map, List.getElem?_map]
  exact h j

theorem updatePlayer_map_id (s : State) (i : Nat) (f : Player → Player)
    (hid : ∀ q, (f q).id = q.id) :
    (updatePlayer s i f).players.map Player.id = s.players.map Player.id := by
  apply map_id_of_pointwise
  intro j
  rw [updatePlayer_get]
  by_cases h : j = i
  · simp only [h, if_true, Option.map_map]
    congr 1
    funext q
    exact hid q
  · simp only [h, if_false]

theorem hitPlayer_map_id {s s' : State} {t : Nat} {direction : Dir} {b : Bool}
    (h : hitPlayer s t direction = Outcome.ok (b, s')) :
    s'.players.map Player.id = s.players.map Player.id := by
  cases hq : s.players[t]? with
  | none => simp [hitPlayer, hq] at h
  | some q =>
    obtain ⟨s2, hs2, _, _, _, _, _, hoth, hself⟩ := hitPlayer_spec direction hq
    rw [hs2] at h
    cases h
    apply map_id_of_pointwise
    intro j
    by_cases hj : j = t
    · subst hj
      rw [hself, hq]
      simp only [Option.map_some', Option.some.injEq]
      split
      · rfl
      · split <;> rfl
    · rw [hoth j hj]

theorem rosterIds_atomic {i : Nat} {s s' : State} (h : Atomic i s s') :
    s'.players.map Player.id = s.players.map Player.id := by
  cases h with
  | turn _ hpl => rw [hpl]
  | cosmetic j f hf => exact updatePlayer_map_id s j f (fun q => (hf q).1)
  | move j row col _ _ _ => exact updatePlayer_map_id s j _ (fun _ => rfl)
  | laser row col k _ _ => rw [applyLaserToBlock_players]
  | hit t q direction _ _ _ hhit => exact hitPlayer_map_id hhit

theorem hpOk_atomic {i : Nat} {s s' : State}
    (hs : ∀ (j : Nat) (q : Player), s.players[j]? = some q → hpOk q) (h : Atomic i s s') :
    ∀ (j : Nat) (q : Player), s'.players[j]? = some q → hpOk q := by
  cases h with
  | turn _ hpl => rw [hpl]; exact hs
  | cosmetic k f hf =>
    intro j q hq
    rw [updatePlayer_get] at hq
    by_cases h : j = k
    · simp only [h, if_true, Option.map_eq_some'] at hq
      obtain ⟨q0, hq0, rfl⟩ := hq
      have := hs k q0 hq0
      unfold hpOk at this ⊢
      rw [(hf q0).2.2.2.1, (hf q0).2.2.2.2]
      exact this
    · simp only [h, if_false] at hq
      exact hs j q hq
  | move k row col _ _ _ =>
    intro j q hq
    rw [updatePlayer_get] at hq
    by_cases h : j = k
    · simp only [h, if_true, Option.map_eq_some'] at hq
      obtain ⟨q0, hq0, rfl⟩ := hq
      exact hs k q0 hq0
    · simp only [h, if_false] at hq
      exact hs j q hq
  | laser row col k _ _ =>
    intro j q hq
    rw [applyLaserToBlock_players] at hq
    exact hs j q hq
  | hit t q0 direction _ hq0 hqa hhit =>
    obtain ⟨s2, hs2, _, _, _, _, _, hoth, hself⟩ := hitPlayer_spec direction hq0
    rw [hs2] at hhit
    cases hhit
    intro j q hq
    by_cases hj : j = t
    · subst hj
      rw [hself] at hq
      cases hq
      have hq0ok := hs j q0 hq0
      obtain ⟨h1, h2, h3⟩ := hq0ok
      have hpos : 0 < q0.hp := h3.mp hqa
      simp only [DEFAULT_HP] at h2
      split
      · exact hs j q0 hq0
      · simp only [LASER_DAMAGE]
        split
        · exact ⟨le_refl 0, by simp [DEFAULT_HP], by simp⟩
        · rename_i hh
          refine ⟨by simp only; omega, by simp only [DEFAULT_HP]; omega, ?_⟩
          simp only [hqa, true_iff]
          omega
    · rw [hoth j hj] at hq
      exact hs j q hq

theorem Inv_atomic {i : Nat} {s s' : State} (hinv : Inv s) (h : Atomic i s s') : Inv s' := by
  cases h with
  | turn hmap hpl =>
    exact Inv_of_posStable hinv ⟨hmap, fun j q' hq => ⟨q', by rw [← hpl]; exact hq, rfl, rfl, id⟩⟩
  | cosmetic j f hf =>
    exact Inv_of_posStable hinv
      (posStable_updatePlayer s j f
        (fun q => ⟨(hf q).2.1, (hf q).2.2.1, fun h => by rw [← (hf q).2.2.2.2]; exact h⟩))
  | move j row col hin hblk hfree => exact Inv_move hinv j hin hblk hfree
  | laser row col k hin ht => exact Inv_applyLaserToBlock hinv hin ht
  | hit t q direction _ _ _ hhit => exact Inv_of_posStable hinv (posStable_hitPlayer hhit)

theorem reachable_steps {P : State → Prop} (hstart : ∀ s0, P (startMatch s0))
    (hstep : ∀ i s s', Inv s → P s → Atomic i s s' → P s') {s : State} (h : Reachable s) :
    P s := by
  induction h with
  | start s0 => exact hstart s0
  | @step s s' action direction hr hex ih =>
    have hinv := Inv_of_reachable hr
    obtain ⟨i, hchain⟩ := executeActiveCommand_atomic hinv.1 hex
    have : Inv s' ∧ P s' :=
      steps_preserve (P := fun x => Inv x ∧ P x)
        (fun a b hab hatom => ⟨Inv_atomic hab.1 hatom, hstep i a b hab.1 hab.2 hatom⟩)
        hchain ⟨hinv, ih⟩
    exact this.2

theorem roster_of_reachable {s : State} (h : Reachable s) :
    s.players.map Player.id = TURN_ORDER :=
  reachable_steps (P := fun x => x.players.map Player.id = TURN_ORDER) (fun _ => rfl)
    (fun _ _ _ _ hp hatom => (rosterIds_atomic hatom).trans hp) h

theorem hpOk_of_reachable {s : State} (h : Reachable s) :
    ∀ (j : Nat) (q : Player), s.players[j]? = some q → hpOk q := by
  refine reachable_steps (P := fun x => ∀ (j : Nat) (q : Player), x.players[j]? = some q → hpOk q)
    ?_ (fun _ _ _ _ hp hatom => hpOk_atomic hp hatom) h
  intro s0
  have hs : startMatch s0 = startMatch idleState := rfl
  rw [hs]
  have hall : ∀ q ∈ (startMatch idleState).players,
      0 ≤ q.hp ∧ q.hp ≤ DEFAULT_HP ∧ q.alive = true ∧ 0 < q.hp := by decide
  intro j q hq
  obtain ⟨h1, h2, h3, h4⟩ := hall q (List.getElem?_mem hq)
  exact ⟨h1, h2, by simp [h3, h4]⟩

/-- C13 (combatant well-formedness).  In every state reachable from
`startMatch` by `executeActiveCommand` steps there are exactly four combatants,
with the ids of the turn order, and every one of them stands inside the 11 x 11
board, has an integer hp with 0 ≤ hp ≤ 10, and is alive if and only if its
hp is positive. -/
theorem combatant_wellformed (s : State) (h : Reachable s) :
    s.players.length = 4 ∧ s.players.map Player.id = TURN_ORDER ∧
    ∀ p ∈ s.players,
      (0 ≤ p.row ∧ p.row < 11 ∧ 0 ≤ p.col ∧ p.col < 11) ∧
      0 ≤ p.hp ∧ p.hp ≤ 10 ∧ (p.alive = true ↔ 0 < p.hp) := by
  have hroster := roster_of_reachable h
  have hlen : s.players.length = 4 := by
    have := congrArg List.length hroster
    simpa [TURN_ORDER] using this
  refine ⟨hlen, hroster, ?_⟩
  intro p hp
  obtain ⟨j, hj⟩ := List.getElem?_of_mem hp
  have hin := (Inv_of_reachable h).2.1 j p hj
  rw [inBounds_iff] at hin
  have hhp := hpOk_of_reachable h j p hj
  simp only [hpOk, DEFAULT_HP] at hhp
  exact ⟨hin, hhp⟩

/-- Witness of C13: the state in which "down" has been eliminated is reachable,
so all four combatants are well-formed in it. -/
theorem combatant_wellformed_witness :
    graveState.players.length = 4 ∧ graveState.players.map Player.id = TURN_ORDER ∧
    ∀ p ∈ graveState.players,
      (0 ≤ p.row ∧ p.row < 11 ∧ 0 ≤ p.col ∧ p.col < 11) ∧
      0 ≤ p.hp ∧ p.hp ≤ 10 ∧ (p.alive = true ↔ 0 < p.hp) :=
  combatant_wellformed graveState reachable_graveState

theorem noneOnBlock_atomic {i : Nat} {s s' : State} (hinv : Inv s)
    (hs : ∀ (j : Nat) (q : Player), s.players[j]? = some q → holdsBlock s q.row q.col = false)
    (h : Atomic i s s') :
    ∀ (j : Nat) (q : Player), s'.players[j]? = some q → holdsBlock s' q.row q.col = false := by
  have hstable : ∀ {x : State}, PosStable s x →
      ∀ (j : Nat) (q : Player), x.players[j]? = some q → holdsBlock x q.row q.col = false := by
    intro x hx j q hq
    obtain ⟨q0, hq0, hr, hc, _⟩ := hx.2 j q hq
    rw [holdsBlock_congr hx.1, hr, hc]
    exact hs j q0 hq0
  cases h with
  | turn hmap hpl =>
    exact hstable ⟨hmap, fun j q' hq => ⟨q', by rw [← hpl]; exact hq, rfl, rfl, id⟩⟩
  | cosmetic j f hf =>
    exact hstable (posStable_updatePlayer s j f
      (fun q => ⟨(hf q).2.1, (hf q).2.2.1, fun h => by rw [← (hf q).2.2.2.2]; exact h⟩))
  | move k row col hin hblk hfree =>
    intro j q hq
    rw [holdsBlock_congr (updatePlayer_map s k _)]
    rw [updatePlayer_get] at hq
    by_cases h : j = k
    · simp only [h, if_true, Option.map_eq_some'] at hq
      obtain ⟨q0, _, rfl⟩ := hq
      exact hblk
    · simp only [h, if_false] at hq
      exact hs j q hq
  | laser row col k hin ht =>
    intro j q hq
    rw [applyLaserToBlock_players] at hq
    have h1 := hs j q hq
    by_cases hcell : (q.row, q.col) = (row, col)
    · exfalso
      cases hcell
      simp [holdsBlock, ht] at h1
    · unfold holdsBlock at h1 ⊢
      rw [applyLaserToBlock_tile_ne s k hin (hinv.2.1 j q hq) hcell]
      exact h1
  | hit t q direction _ _ _ hhit => exact hstable (posStable_hitPlayer hhit)

theorem noneOnBlock_of_reachable {s : State} (h : Reachable s) :
    ∀ (j : Nat) (q : Player), s.players[j]? = some q → holdsBlock s q.row q.col = false := by
  refine reachable_steps
    (P := fun x => ∀ (j : Nat) (q : Player), x.players[j]? = some q →
      holdsBlock x q.row q.col = false)
    ?_ (fun _ _ _ hinv hp hatom => noneOnBlock_atomic hinv hp hatom) h
  intro s0
  have hs : startMatch s0 = startMatch idleState := rfl
  rw [hs]
  have hall : ∀ q ∈ (startMatch idleState).players,
      holdsBlock (startMatch idleState) q.row q.col = false := by decide
  intro j q hq
  exact hall q (List.getElem?_mem hq)

/-- C14 as stated fails: `graveState` is reached from a fresh match by the
commands `graveCommands`, and in it the living "up" (roster index 0) and the
eliminated "down" (roster index 2) both have (row, col) = (1, 5).  So it is not
true that in every reachable state two distinct combatants, alive or dead,
stand on different cells. -/
theorem dead_and_living_share_cell :
    runCommands (startMatch idleState) graveCommands = Outcome.ok graveState
      ∧ Option.map (fun p => (p.row, p.col, p.alive)) graveState.players[0]?
          = some (1, 5, true)
      ∧ Option.map (fun p => (p.row, p.col, p.alive)) graveState.players[2]?
          = some (1, 5, false)
      ∧ ¬ (∀ s : State, Reachable s →
            ∀ (i j : Nat) (p q : Player), s.players[i]? = some p → s.players[j]? = some q →
              i ≠ j → ¬ (p.row = q.row ∧ p.col = q.col)) := by
  refine ⟨by decide, by decide, by decide, ?_⟩
  intro hall
  exact hall graveState reachable_graveState 0 2 _ _ rfl rfl (by decide) ⟨rfl, rfl⟩

/-- C14 amended (data-model invariant).  In every state reachable from
`startMatch` by `executeActiveCommand` steps, every in-bounds board cell holds
the empty tile or a block, no two distinct living combatants have the same
(row, col), and no combatant, alive or dead, is on a block cell (each stands in
bounds on a cell that does not hold a block). -/
theorem data_model_invariant (s : State) (h : Reachable s) :
    (∀ r c, inBounds r c = true →
      tileAt s.map r c = some Tile.empty ∨ ∃ k, tileAt s.map r c = some (Tile.block k)) ∧
    (∀ (i j : Nat) (p q : Player), s.players[i]? = some p → s.players[j]? = some q → i ≠ j →
      p.alive = true → q.alive = true → ¬ (p.row = q.row ∧ p.col = q.col)) ∧
    (∀ p ∈ s.players,
      inBounds p.row p.col = true ∧ ∀ k, tileAt s.map p.row p.col ≠ some (Tile.block k)) := by
  obtain ⟨hb, hin, _, hocc⟩ := Inv_of_reachable h
  refine ⟨?_, ?_, ?_⟩
  · intro r c hrc
    obtain ⟨t, ht⟩ := tileAt_of_boardOk hb hrc
    cases t with
    | empty => exact Or.inl ht
    | block k => exact Or.inr ⟨k, ht⟩
  · intro i j p q hp hq hij ha hqa hcon
    exact hij (hocc i j p q hp hq ha hqa hcon.1 hcon.2)
  · intro p hp
    obtain ⟨i, hi⟩ := List.getElem?_of_mem hp
    refine ⟨hin i p hi, ?_⟩
    intro k hk
    have := noneOnBlock_of_reachable h i p hi
    simp [holdsBlock, hk] at this

/-- Witness of amended C14: the invariant in the reachable state in which "up"
stands on the cell of the eliminated "down". -/
theorem data_model_invariant_witness :
    (∀ r c, inBounds r c = true →
      tileAt graveState.map r c = some Tile.empty
        ∨ ∃ k, tileAt graveState.map r c = some (Tile.block k)) ∧
    (∀ (i j : Nat) (p q : Player), graveState.players[i]? = some p →
      graveState.players[j]? = some q → i ≠ j →
      p.alive = true → q.alive = true → ¬ (p.row = q.row ∧ p.col = q.col)) ∧
    (∀ p ∈ graveState.players,
      inBounds p.row p.col = true ∧
        ∀ k, tileAt graveState.map p.row p.col ≠ some (Tile.block k)) :=
  data_model_invariant graveState reachable_graveState

/-! ## The live-turn invariant -/

theorem runAction_rejected {s s' : State} {i : Nat} {action : Action} {direction : Dir}
    (h : runAction s i action direction = Outcome.ok (false, s')) :
    s' = s ∨ s' = updatePlayer s i fun p =>
      { p with aim := direction, spriteMode := SpriteMode.attack } := by
  cases action with
  | move =>
    simp only [runAction] at h
    split at h
    · cases h
    · unfold tryMove at h
      split at h
      · cases h
      · dsimp only at h
        split at h
        · cases h; exact Or.inl rfl
        · split at h
          · cases h
          · cases h
          · cases h; exact Or.inl rfl
          · split at h
            · cases h; exact Or.inl rfl
            · cases h
  | shield =>
    simp only [runAction] at h
    split at h
    · cases h
    · cases h
  | shoot =>
    simp only [runAction] at h
    split at h
    · cases h
    · unfold shoot at h
      split at h
      · cases h
      · dsimp only at h
        split at h
        · cases h; exact Or.inr rfl
        · have := (shootLoop_turn _ _ _ _ _ h).1
          cases this
  | other =>
    simp only [runAction] at h
    cases h
    exact Or.inl rfl

theorem filter_alive_length_congr :
    ∀ (l l' : List Player), l'.map Player.alive = l.map Player.alive →
      (l'.filter fun p => p.alive).length = (l.filter fun p => p.alive).length := by
  intro l
  induction l with
  | nil =>
    intro l' h
    cases l' with
    | nil => rfl
    | cons a l' => simp at h
  | cons b l ih =>
    intro l' h
    cases l' with
    | nil => simp at h
    | cons a l' =>
      simp only [List.map_cons, List.cons.injEq] at h
      have := ih l' h.2
      simp only [List.filter_cons, h.1]
      split <;> simp [this]

theorem updatePlayer_map_alive (s : State) (i : Nat) (f : Player → Player)
    (hal : ∀ q, (f q).alive = q.alive) :
    (updatePlayer s i f).players.map Player.alive = s.players.map Player.alive := by
  apply List.ext_getElem?
  intro j
  rw [List.getElem?_map, List.getElem?_map, updatePlayer_get]
  by_cases h : j = i
  · simp only [h, if_true, Option.map_map]
    congr 1
    funext q
    exact hal q
  · simp only [h, if_false]

theorem alivePlayers_updatePlayer (s : State) (i : Nat) (f : Player → Player)
    (hal : ∀ q, (f q).alive = q.alive) :
    (alivePlayers (updatePlayer s i f)).length = (alivePlayers s).length :=
  filter_alive_length_congr _ _ (updatePlayer_map_alive s i f hal)

theorem actorAlive_atomic {i : Nat} {s s' : State} (h : Atomic i s s') :
    Option.map Player.alive s'.players[i]? = Option.map Player.alive s.players[i]? := by
  cases h with
  | turn _ hpl => rw [hpl]
  | cosmetic j f hf =>
    have := congrArg (fun l : List Bool => l[i]?)
      (updatePlayer_map_alive s j f (fun q => (hf q).2.2.2.2))
    simpa [List.getElem?_map] using this
  | move j row col _ _ _ =>
    have := congrArg (fun l : List Bool => l[i]?)
      (updatePlayer_map_alive s j (fun q => { q with row := row, col := col }) (fun _ => rfl))
    simpa [List.getElem?_map] using this
  | laser row col k _ _ => rw [applyLaserToBlock_players]
  | hit t q direction hti hq _ hhit =>
    obtain ⟨s2, hs2, _, _, _, _, _, hoth, _⟩ := hitPlayer_spec direction hq
    rw [hs2] at hhit
    cases hhit
    rw [hoth i (Ne.symm hti)]

theorem actorAlive_steps {i : Nat} {s s' : State} (h : Relation.ReflTransGen (Atomic i) s s') :
    Option.map Player.alive s'.players[i]? = Option.map Player.alive s.players[i]? :=
  steps_preserve
    (P := fun x => Option.map Player.alive x.players[i]? = Option.map Player.alive s.players[i]?)
    (fun _ _ hp hatom => (actorAlive_atomic hatom).trans hp) h rfl

theorem rosterIds_steps {i : Nat} {s s' : State} (h : Relation.ReflTransGen (Atomic i) s s') :
    s'.players.map Player.id = s.players.map Player.id :=
  steps_preserve (P := fun x => x.players.map Player.id = s.players.map Player.id)
    (fun _ _ hp hatom => (rosterIds_atomic hatom).trans hp) h rfl

theorem alivePlayers_pos {s : State} {i : Nat}
    (h : Option.map Player.alive s.players[i]? = some true) : 1 ≤ (alivePlayers s).length := by
  cases hp : s.players[i]? with
  | none => simp [hp] at h
  | some p =>
    simp only [hp, Option.map_some', Option.some.injEq] at h
    have hmem : p ∈ alivePlayers s := by
      unfold alivePlayers
      rw [List.mem_filter]
      exact ⟨List.getElem?_mem hp, h⟩
    exact List.length_pos_of_mem hmem

theorem aliveRef_some_iff {s : State} {i : Nat} :
    aliveRef s (some i) = true ↔ Option.map Player.alive s.players[i]? = some true := by
  cases hp : s.players[i]? with
  | none => simp [aliveRef, hp]
  | some p => simp [aliveRef, hp]

theorem spendTurn_alive (s : State) :
    (alivePlayers (spendTurn s)).length = (alivePlayers s).length
      ∧ ∀ j, slotAlive (spendTurn s) j = slotAlive s j := by
  obtain ⟨s1, hs1, hsl, _, _, _, hshape⟩ := spendTurn_eq s
  have h1 : (alivePlayers s1).length = (alivePlayers s).length := by
    rcases hshape with rfl | ⟨i, rfl⟩
    · rfl
    · exact alivePlayers_updatePlayer s i _ (fun _ => rfl)
  rcases spendTurnLoop_spec s1 s.currentTurnIndex 4 s.currentTurnIndex with
    ⟨k, _, _, _, _, hk5⟩ | ⟨_, hs⟩
  · rw [hs1, hk5]
    exact ⟨h1, hsl⟩
  · rw [hs1, hs]
    exact ⟨h1, hsl⟩

theorem spendTurn_active_alive {s : State} (hroster : s.players.map Player.id = TURN_ORDER)
    {m : Nat} (hm : Option.map Player.alive s.players[m]? = some true) :
    slotAlive (spendTurn s) (spendTurn s).currentTurnIndex = true := by
  have hlen : s.players.length = 4 := by
    have := congrArg List.length hroster
    simpa [TURN_ORDER] using this
  have hm4 : m < 4 := by
    by_contra hc
    rw [List.getElem?_eq_none (by omega)] at hm
    simp at hm
  have hsm : slotAlive s m = true := (slotAlive_roster hroster hm4).mpr hm
  obtain ⟨s1, hs1, hsl, _, _, _, _⟩ := spendTurn_eq s
  rw [(spendTurn_alive s).2]
  rcases spendTurnLoop_spec s1 s.currentTurnIndex 4 s.currentTurnIndex with
    ⟨k, _, _, hk3, _, hk5⟩ | ⟨hnone, _⟩
  · rw [hs1, hk5]
    rw [hsl] at hk3
    exact hk3
  · exfalso
    have hj : ∃ j, 1 ≤ j ∧ j ≤ 4 ∧ (s.currentTurnIndex + j) % 4 = m := by
      by_cases h0 : (m + 4 - s.currentTurnIndex % 4) % 4 = 0
      · exact ⟨4, by omega, by omega, by omega⟩
      · exact ⟨(m + 4 - s.currentTurnIndex % 4) % 4, by omega, by omega, by omega⟩
    obtain ⟨j, hj1, hj2, hj3⟩ := hj
    have := hnone j hj1 hj2
    rw [hsl, hj3, hsm] at this
    cases this

theorem liveTurn_of_reachable {s : State} (h : Reachable s) : LiveTurn s := by
  induction h with
  | start s0 =>
    have hs : startMatch s0 = startMatch idleState := rfl
    rw [hs]
    intro _
    decide
  | @step s s' action direction hr hex ih =>
    have hinv := Inv_of_reachable hr
    have hroster := roster_of_reachable hr
    rcases executeActiveCommand_cases hex with
      rfl | ⟨i, hph, hact, hal, hrun | ⟨s1, hrun, hw | hw⟩⟩
    · exact ih
    · rcases runAction_rejected hrun with rfl | rfl
      · exact ih
      · intro _
        obtain ⟨h1, h2⟩ := ih hph
        refine ⟨?_, ?_⟩
        · rw [alivePlayers_updatePlayer s i
            (fun p => { p with aim := direction, spriteMode := SpriteMode.attack })
            (fun _ => rfl)]
          exact h1
        · rw [updatePlayer_currentTurnIndex,
            slotAlive_updatePlayer s i
              (fun p => { p with aim := direction, spriteMode := SpriteMode.attack })
              (fun _ => rfl) (fun _ => rfl)]
          exact h2
    · rw [hw.2]
      intro hcon
      cases hcon
    · rw [hw.2]
      intro _
      have hchain := runAction_atomic hinv.1 hrun
      have hali : Option.map Player.alive s1.players[i]? = some true := by
        rw [actorAlive_steps hchain]
        exact aliveRef_some_iff.mp hal
      have hroster1 : s1.players.map Player.id = TURN_ORDER :=
        (rosterIds_steps hchain).trans hroster
      have hpos := alivePlayers_pos hali
      refine ⟨?_, spendTurn_active_alive hroster1 hali⟩
      rw [(spendTurn_alive s1).1]
      have hne := hw.1
      omega

/-- C15 (live-turn invariant).  Every state reachable from `startMatch` by
`executeActiveCommand` steps whose phase is playing has at least two living
combatants, and its active combatant, the one with id
`TURN_ORDER[currentTurnIndex]`, is in the roster and alive.  Hence whenever
`executeActiveCommand` gets to `spendTurn` in such a state (the action was
consumed with the state `s1` and `checkWinner` did not find exactly one living
combatant), at least two combatants are alive in `s1`. -/
theorem live_turn_invariant (s : State) (h : Reachable s) (hp : s.phase = Phase.playing) :
    2 ≤ (alivePlayers s).length ∧
    (∃ (i : Nat) (p : Player), getActivePlayer s = some i ∧ s.players[i]? = some p
      ∧ TURN_ORDER[s.currentTurnIndex]? = some p.id ∧ p.alive = true) ∧
    (∀ (action : Action) (direction : Dir) (i : Nat) (s1 : State),
      getActivePlayer s = some i → runAction s i action direction = Outcome.ok (true, s1) →
      (alivePlayers s1).length ≠ 1 → 2 ≤ (alivePlayers s1).length) := by
  obtain ⟨h1, h2⟩ := liveTurn_of_reachable h hp
  have hact : aliveRef s (getActivePlayer s) = true := h2
  refine ⟨h1, ?_, ?_⟩
  · cases hg : getActivePlayer s with
    | none => simp [hg, aliveRef] at hact
    | some i =>
      rw [hg] at hact
      have hfind : findIdx (fun p => decide (some p.id = TURN_ORDER[s.currentTurnIndex]?))
          s.players = some i := hg
      obtain ⟨⟨p, hpi, hpid⟩, _⟩ := findIdx_eq_some hfind
      refine ⟨i, p, rfl, hpi, ?_, ?_⟩
      · have := of_decide_eq_true hpid
        exact this.symm
      · have := aliveRef_some_iff.mp hact
        simpa [hpi] using this
  · intro action direction i s1 hg hrun hne
    rw [hg] at hact
    have hchain := runAction_atomic (Inv_of_reachable h).1 hrun
    have hali : Option.map Player.alive s1.players[i]? = some true := by
      rw [actorAlive_steps hchain]
      exact aliveRef_some_iff.mp hact
    have hpos := alivePlayers_pos hali
    omega

/-- Witness of C15: after "down" has been eliminated the match is still
playing, three combatants are alive and the turn is with "left", who is
alive. -/
theorem live_turn_invariant_witness :
    2 ≤ (alivePlayers graveState).length ∧
    (∃ (i : Nat) (p : Player), getActivePlayer graveState = some i
      ∧ graveState.players[i]? = some p
      ∧ TURN_ORDER[graveState.currentTurnIndex]? = some p.id ∧ p.alive = true) ∧
    (∀ (action : Action) (direction : Dir) (i : Nat) (s1 : State),
      getActivePlayer graveState = some i →
      runAction graveState i action direction = Outcome.ok (true, s1) →
      (alivePlayers s1).length ≠ 1 → 2 ≤ (alivePlayers s1).length) :=
  live_turn_invariant graveState reachable_graveState (by decide)

end Cowboys
